import Mathlib

/-!
Verification of `essmc2/utils/registry.py`: a name-keyed component registry
with config-driven construction (`build_from_config`), decorator-style and
direct registration, and signature/docstring introspection that produces
parameter templates (`get_class_arguments` / `get_function_arguments`,
reached through `Registry.fetch_parameters`).

The embedding is shallow:

* Python values that configs can hold are `PyVal`; mutable containers
  (dicts, lists) live on an explicit heap `PyHeap` (a list of cells,
  addresses are indices), so that `copy.deepcopy` and mutation by invoked
  entities are modelled faithfully, including aliasing.
* Classes and functions are immutable descriptors (`PyClass`, `PyFunc`):
  the registry stores them, introspection reads their signature and
  parsed docstring, and `build_from_config` receives the semantics of
  actually invoking one as an explicit `call` argument (that code is the
  registered component's, not this module's).
* Each `raise` site of the source becomes a distinct `PyErr` constructor
  carrying exactly the data the source interpolates into the message.
* Fallible operations return their result together with the state at the
  time of the raise, mirroring the order of statements in the source.
-/

/-- One entry of `docstring_parser`'s parse result (`doc.params`): a
parameter name (`arg_name`) and its optional description. The docstring
parsing itself is an external library, so docstrings enter the model
already parsed. -/
structure DocParam where
  arg_name : String
  description : Option String
deriving DecidableEq, Repr

/-- Model of plain Python values used as signature defaults and as the
values stored in introspection templates (`inspect.Parameter.default`,
the result of calling a type annotation with no arguments, and the
`dict()` / `list()` defaults for variadic parameters). -/
inductive DVal where
  | pyNone : DVal
  | int (n : Int) : DVal
  | str (s : String) : DVal
  | bool (b : Bool) : DVal
  | dict (es : List (String × DVal)) : DVal
  | list (vs : List DVal) : DVal

/-- Kind of an `inspect.Parameter`. -/
inductive ParamKind where
  | posOnly | posOrKw | varPos | kwOnly | varKw
deriving DecidableEq, Repr

/-- A type annotation on a parameter: its `__name__` and the result of
calling it with no arguments (`construct = none` models the call raising,
which the source silently swallows). -/
structure PyAnn where
  name : String
  construct : Option DVal

/-- One `inspect.Parameter` of a signature: its kind, its default
(`none` models `inspect.Parameter.empty`) and its annotation (`none`
models `inspect.Parameter.empty`). -/
structure ParamSig where
  kind : ParamKind
  default : Option DVal
  ann : Option PyAnn

/-- One level of a class's method resolution order: the level's
`__name__`, its parsed `__doc__` and the parameters of
`inspect.signature(level.__init__)` in signature order. -/
structure ClassLevel where
  name : String
  doc : List DocParam
  params : List (String × ParamSig)

/-- A Python class value: its `__name__` and its `__mro__` (most-derived
level first; the head is the class's own level). -/
structure PyClass where
  name : String
  mro : List ClassLevel

/-- A Python function value: its `__name__`, parsed `__doc__` and the
parameters of `inspect.signature(func)` in signature order. A lambda is a
function whose `__name__` is `"<lambda>"` (in Python `types.LambdaType`
is `types.FunctionType`, so the `isinstance` check on line 250 of the
source is true of every function; the discriminating test is the name). -/
structure PyFunc where
  name : String
  doc : List DocParam
  params : List (String × ParamSig)

/-- A Python object as seen by the registration and build surface:
a class, a function, or anything else. `other` carries the value's type
name (for error messages), its truthiness (Python `or` in `Registry.get`
tests truthiness) and its optional `__name__` attribute. -/
inductive PyObj where
  | cls (c : PyClass)
  | fn (f : PyFunc)
  | other (typeName : String) (truthy : Bool) (objName : Option String)

/-- `inspect.isclass`. -/
def PyObj.isclass : PyObj → Bool
  | .cls _ => true
  | _ => false

/-- `inspect.isfunction`. -/
def PyObj.isfunction : PyObj → Bool
  | .fn _ => true
  | _ => false

/-- Python truthiness of a registrable object: classes and functions are
always truthy. -/
def PyObj.truthyB : PyObj → Bool
  | .cls _ => true
  | .fn _ => true
  | .other _ t _ => t

/-- The `__name__` attribute, when the object has one. -/
def PyObj.objName? : PyObj → Option String
  | .cls c => some c.name
  | .fn f => some f.name
  | .other _ _ n => n

/-- A short rendering of the object, standing for Python's `str(obj)`
inside interpolated messages. -/
def PyObj.reprStr : PyObj → String
  | .cls c => "<class '" ++ c.name ++ "'>"
  | .fn f => "<function " ++ f.name ++ ">"
  | .other t _ _ => "<" ++ t ++ " instance>"

/-- Python's `type(o)` as a short name, used only inside error
payloads of the registration surface. -/
def PyObj.typeName : PyObj → String
  | .cls _ => "type"
  | .fn _ => "function"
  | .other t _ _ => t

/-- A Python runtime value that a config dict can hold: immutable leaves
(None, int, str, bool), class/function objects (which `copy.deepcopy`
returns unchanged), and references to mutable containers on the heap. -/
inductive PyVal where
  | pyNone : PyVal
  | int (n : Int) : PyVal
  | str (s : String) : PyVal
  | bool (b : Bool) : PyVal
  | obj (o : PyObj) : PyVal
  | ref (a : Nat) : PyVal

/-- A mutable container cell on the heap: a dict (insertion-ordered,
string keys, as config dicts are) or a list. -/
inductive PyCell where
  | dict (es : List (String × PyVal)) : PyCell
  | list (vs : List PyVal) : PyCell

/-- The heap: address `a` is index `a` of the list; allocation appends. -/
abbrev PyHeap := List PyCell

/-- Is `v` a reference? -/
def PyVal.isRef : PyVal → Bool
  | .ref _ => true
  | _ => false

/-- Python's `type(v)` rendered as a short name, used only inside error
payloads. -/
def PyVal.pyType (h : PyHeap) : PyVal → String
  | .pyNone => "NoneType"
  | .int _ => "int"
  | .str _ => "str"
  | .bool _ => "bool"
  | .obj (.cls _) => "type"
  | .obj (.fn _) => "function"
  | .obj (.other t _ _) => t
  | .ref a =>
    match h[a]? with
    | some (.dict _) => "dict"
    | some (.list _) => "list"
    | none => "<invalid reference>"

/-! ## Insertion-ordered dict (Python 3.7+ `dict` / `OrderedDict`) -/

/-- Lookup: the value at the first entry whose key is `k`. -/
def odGet (es : List (String × α)) (k : String) : Option α :=
  match es.find? (fun p => p.1 == k) with
  | some p => some p.2
  | none => none

/-- The keys, in order. -/
def odKeys (es : List (String × α)) : List String :=
  es.map Prod.fst

/-- Assignment `d[k] = v`: an existing key keeps its position and gets the
new value; a new key is appended. -/
def odSet (es : List (String × α)) (k : String) (v : α) : List (String × α) :=
  if es.any (fun p => p.1 == k) then
    es.map (fun p => if p.1 == k then (k, v) else p)
  else
    es ++ [(k, v)]

/-- Removal `d.pop(k)`'s effect on the dict: the entry with key `k` is
removed, other entries keep their order. -/
def odRemove (es : List (String × α)) (k : String) : List (String × α) :=
  es.filter (fun p => p.1 != k)

/-- `d.update(kvs)`: assign each entry of `kvs` in order. -/
def odUpdate (es kvs : List (String × α)) : List (String × α) :=
  kvs.foldl (fun acc p => odSet acc p.1 p.2) es

/-! ## ParameterInfo

Modelled from the spec: the source imports `ValueComment` from
`essmc2/utils/config.py`, which is not among the repository files given;
the spec describes it as "ParameterInfo: immutable pair
`(default_value, description)`". -/

/-- Modelled from the spec: the `ValueComment` pair stored per parameter
in an introspection template (`essmc2.utils.config.ValueComment` is not
among the given source files). -/
structure ValueComment where
  value : DVal
  comment : String

/-! ## Docstring parameter extraction (`_get_doc_params`, lines 79-87) -/

/-- Source `_get_doc_params`: from the parsed docstring's parameter list,
an ordered dict mapping each parameter name whose description is not
`None` to that description. -/
def getDocParams (doc : List DocParam) : List (String × String) :=
  doc.foldl
    (fun ret p =>
      match p.description with
      | some desc => odSet ret p.arg_name desc
      | none => ret)
    []

/-! ## Signature introspection (lines 90-171)

The body shared verbatim by `get_class_arguments` (lines 103-126) and
`get_function_arguments` (lines 146-169): computing the default value and
the comment of one POSITIONAL_OR_KEYWORD parameter. `ownerName` is
`type_c.__name__` in the class variant and `func.__name__` in the
function variant. -/

/-- Lines 103-126 / 146-169: default value and comment of one ordinary
parameter. With no declared default, a TODO placeholder is synthesized
and the declared annotation is best-effort called with no arguments
(failure silently ignored); a description found in the docstring is
appended, on its own line when it is multi-line and the placeholder is
non-empty. -/
def paramDefault (ownerName : String) (docDict : List (String × String))
    (key : String) (p : ParamSig) : ValueComment :=
  let dv : DVal × String :=
    match p.default with
    | some d => (d, "")
    | none =>
      let dd := "TODO: Complete this value for type " ++ ownerName
      match p.ann with
      | some an =>
        match an.construct with
        | some tryValue =>
          (tryValue, dd ++ ", use default from type " ++ an.name ++ "()" ++ ".")
        | none => (DVal.pyNone, dd ++ ".")
      | none => (DVal.pyNone, dd ++ ".")
  match odGet docDict key with
  | some doc =>
    if (doc.splitOn "\n").length ≤ 1 || dv.2.length = 0 then
      ⟨dv.1, dv.2 ++ doc⟩
    else
      ⟨dv.1, dv.2 ++ "\n" ++ doc⟩
  | none => ⟨dv.1, dv.2⟩

/-- Lines 97-126: processing of one parameter of one MRO level in
`get_class_arguments`: parameters whose kind is not
POSITIONAL_OR_KEYWORD are skipped, as is a name already captured by a
more-derived level. -/
def classParamStep (ownerName : String) (docDict : List (String × String))
    (args : List (String × ValueComment)) (kv : String × ParamSig) :
    List (String × ValueComment) :=
  if kv.2.kind != ParamKind.posOrKw then args
  else if (odGet args kv.1).isSome then args
  else odSet args kv.1 (paramDefault ownerName docDict kv.1 kv.2)

/-- Lines 93-126: processing of one MRO level: its docstring is parsed,
its `__init__` signature is read with `self` excluded, and each remaining
parameter is processed in signature order. -/
def classLevelStep (args : List (String × ValueComment)) (lvl : ClassLevel) :
    List (String × ValueComment) :=
  let docDict := getDocParams lvl.doc
  let parameters := lvl.params.filter (fun kv => kv.1 != "self")
  parameters.foldl (classParamStep lvl.name docDict) args

/-- Source `get_class_arguments` (lines 90-127): walk `cls.__mro__` from
most-derived to most-base, merging each level's parameters into one
ordered template; a name already present is never overwritten. -/
def get_class_arguments (cls : PyClass) : List (String × ValueComment) :=
  cls.mro.foldl classLevelStep []

/-- Lines 136-169: processing of one parameter in
`get_function_arguments`: VAR_KEYWORD yields `dict()`, VAR_POSITIONAL
yields `list()`, other non-POSITIONAL_OR_KEYWORD kinds are skipped. -/
def funcParamStep (ownerName : String) (docDict : List (String × String))
    (args : List (String × ValueComment)) (kv : String × ParamSig) :
    List (String × ValueComment) :=
  match kv.2.kind with
  | .varKw => odSet args kv.1 ⟨DVal.dict [], ""⟩
  | .varPos => odSet args kv.1 ⟨DVal.list [], ""⟩
  | .posOrKw => odSet args kv.1 (paramDefault ownerName docDict kv.1 kv.2)
  | _ => args

/-- Source `get_function_arguments` (lines 130-171): one ordered template
from the function's own signature and docstring. -/
def get_function_arguments (func : PyFunc) : List (String × ValueComment) :=
  let docDict := getDocParams func.doc
  func.params.foldl (funcParamStep func.name docDict) []

/-! ## Errors

One constructor per `raise` site of the source, carrying the data the
source interpolates into the message. -/

/-- The Python exception class raised at a site. -/
inductive ExcClass where
  | typeError | keyError | valueError | exception | attributeError
deriving DecidableEq, Repr

/-- The exceptions the module can raise. `calleeErr` stands for an
exception raised by an invoked class or function (external code);
`popMissing` is the KeyError `dict.pop` itself raises (unreachable in the
source because the `type` key is checked first); `copyDepthExceeded` is a
model artifact: the fuel of the deep-copy model ran out (Python's
`copy.deepcopy` handles arbitrary nesting and cycles). -/
inductive PyErr where
  | cfgNotDict (gotType : String)
  | cfgNoType (cfg : List (String × PyVal))
  | regNotRegistry (gotType : String)
  | typeNotFound (reqType : String) (registryName : String)
  | initClassFailed (entity : String) (cause : PyErr)
  | invokeFuncFailed (entity : String) (cause : PyErr)
  | typeNotStrOrClass (gotType : String)
  | moduleNotClass (gotType : String)
  | regClassNotAllowed (registryName : String) (allow : List String)
  | registryNotFunction (gotType : String)
  | regFuncNotAllowed (registryName : String) (allow : List String)
  | lambdaNeedsName
  | byHandFuncNotAllowed (name : String) (allow : List String)
  | byHandClassNotAllowed (name : String) (allow : List String)
  | byHandNotFuncOrClass (gotType : String)
  | noNameAttribute (gotType : String)
  | fetchUnexpectedType (reqType : String)
  | popMissing (key : String)
  | copyDepthExceeded
  | calleeErr (msg : String)

/-- The exception class of each raise site, per the source. -/
def PyErr.excClass : PyErr → ExcClass
  | .cfgNotDict _ => .typeError
  | .cfgNoType _ => .keyError
  | .regNotRegistry _ => .typeError
  | .typeNotFound _ _ => .keyError
  | .initClassFailed _ _ => .exception
  | .invokeFuncFailed _ _ => .exception
  | .typeNotStrOrClass _ => .typeError
  | .moduleNotClass _ => .typeError
  | .regClassNotAllowed _ _ => .typeError
  | .registryNotFunction _ => .typeError
  | .regFuncNotAllowed _ _ => .typeError
  | .lambdaNeedsName => .valueError
  | .byHandFuncNotAllowed _ _ => .typeError
  | .byHandClassNotAllowed _ _ => .typeError
  | .byHandNotFuncOrClass _ => .typeError
  | .noNameAttribute _ => .attributeError
  | .fetchUnexpectedType _ => .valueError
  | .popMissing _ => .keyError
  | .copyDepthExceeded => .exception
  | .calleeErr _ => .exception

/-! ## Registry (lines 174-311)

`build_func` only matters through `Registry.build`, which delegates to
it; the claims address the default builder `build_from_config` directly,
so the field is not modelled. `REGISTRY_LIST` is a process-wide
diagnostic list with no effect on lookup or build (spec section 3) and
is likewise not modelled. -/

/-- The registry state: its diagnostic name, the allow-list of entity
kinds, and the two ordered maps. -/
structure Registry where
  name : String
  allow_types : List String
  class_map : List (String × PyObj)
  func_map : List (String × PyObj)

/-- Python `name or default` for an optional string: `None` and the empty
string are falsy. -/
def strOr (name : Option String) (dflt : String) : String :=
  match name with
  | some s => if s = "" then dflt else s
  | none => dflt

/-- Source line 207-208: `self.class_map.get(req_type) or
self.func_map.get(req_type)`. Python `or` takes the second operand when
the first is falsy (absent key, or a falsy stored object). -/
def Registry.get (r : Registry) (req_type : String) : Option PyObj :=
  match odGet r.class_map req_type with
  | some o => if o.truthyB then some o else odGet r.func_map req_type
  | none => odGet r.func_map req_type

/-- The outcome of a registration call: the registry afterwards, the
warnings emitted, and the exception raised if any (every raise in the
source happens before any map write, so `reg` equals the input registry
whenever `err` is set — that is what the atomicity claim checks). -/
structure RegOut where
  reg : Registry
  warns : List String
  err : Option PyErr

/-- Source `register_class` (lines 213-226), with the returned decorator
already applied to `cls`. -/
def Registry.register_class (r : Registry) (name : Option String)
    (cls : PyObj) : RegOut :=
  match cls with
  | .cls c =>
    if "class" ∉ r.allow_types then
      ⟨r, [], some (.regClassNotAllowed r.name r.allow_types)⟩
    else
      let module_name := strOr name c.name
      let warns :=
        if (odGet r.class_map module_name).isSome then
          ["Class " ++ module_name ++ " already registered, will be replaced"]
        else []
      ⟨{ r with class_map := odSet r.class_map module_name (.cls c) }, warns, none⟩
  | o => ⟨r, [], some (.moduleNotClass o.typeName)⟩

/-- Source `register_function` (lines 228-241), with the returned
decorator already applied to `func`. -/
def Registry.register_function (r : Registry) (name : Option String)
    (func : PyObj) : RegOut :=
  match func with
  | .fn f =>
    if "function" ∉ r.allow_types then
      ⟨r, [], some (.regFuncNotAllowed r.name r.allow_types)⟩
    else
      let func_name := strOr name f.name
      let warns :=
        if (odGet r.func_map func_name).isSome then
          ["Function " ++ func_name ++ " already registered, will be replaced"]
        else []
      ⟨{ r with func_map := odSet r.func_map func_name (.fn f) }, warns, none⟩
  | o => ⟨r, [], some (.registryNotFunction o.typeName)⟩

/-- Lines 256-277 of `register_by_hand`, after the effective name is
computed. -/
def Registry.register_by_hand_named (r : Registry) (instc : PyObj)
    (name : String) : RegOut :=
  match instc with
  | .fn f =>
    if "function" ∉ r.allow_types then
      ⟨r, [], some (.byHandFuncNotAllowed name r.allow_types)⟩
    else
      let warns :=
        if (odGet r.func_map name).isSome then
          ["Function " ++ name ++ " already registered, will be replaced"]
        else []
      ⟨{ r with func_map := odSet r.func_map name (.fn f) }, warns, none⟩
  | .cls c =>
    if "class" ∉ r.allow_types then
      ⟨r, [], some (.byHandClassNotAllowed name r.allow_types)⟩
    else
      let warns :=
        if (odGet r.class_map name).isSome then
          ["Class " ++ name ++ " already registered, will be replaced"]
        else []
      ⟨{ r with class_map := odSet r.class_map name (.cls c) }, warns, none⟩
  | o => ⟨r, [], some (.byHandNotFuncOrClass o.typeName)⟩

/-- Source `register_by_hand` (lines 243-277). The lambda test on line
250 is `isfunction ∧ isinstance LambdaType ∧ __name__ == "<lambda>"`;
`types.LambdaType` is `types.FunctionType`, so for a function value only
the name test discriminates. Line 254 reads `instance.__name__`, which
raises AttributeError for a value without that attribute. -/
def Registry.register_by_hand (r : Registry) (instc : PyObj)
    (name : Option String) : RegOut :=
  if instc.isfunction && instc.objName? == some "<lambda>" && name == none then
    ⟨r, [], some .lambdaNeedsName⟩
  else
    match instc.objName? with
    | none =>
      match name with
      | none => ⟨r, [], some (.noNameAttribute instc.typeName)⟩
      | some n => Registry.register_by_hand_named r instc n
    | some objN => Registry.register_by_hand_named r instc (strOr name objN)

/-- Source `fetch_parameters` (lines 279-292): a key in the class map
goes to `get_class_arguments`, else a key in the function map goes to
`get_function_arguments`, else `ValueError(f"Unexpected type
{req_type}")` — the message names the key only, not the registry. A
stored entry of the wrong kind (impossible through the registration
operations) would make the introspectors fail on missing attributes;
that is the `noNameAttribute` arm. -/
def Registry.fetch_parameters (r : Registry) (req_type : String) :
    Except PyErr (List (String × ValueComment)) :=
  match odGet r.class_map req_type with
  | some (.cls c) => .ok (get_class_arguments c)
  | some o => .error (.noNameAttribute o.typeName)
  | none =>
    match odGet r.func_map req_type with
    | some (.fn f) => .ok (get_function_arguments f)
    | some o => .error (.noNameAttribute o.typeName)
    | none => .error (.fetchUnexpectedType req_type)

/-- Source `contains` (lines 294-295). -/
def Registry.containsKey (r : Registry) (req_type : String) : Bool :=
  (odGet r.class_map req_type).isSome || (odGet r.func_map req_type).isSome

/-! ## Deep copy (`copy.deepcopy`, line 53)

Copying is modelled with fuel: each dereference consumes one unit, so any
acyclic configuration is copied exactly when given fuel at least its
nesting depth; `build_from_config` passes `h.length` fuel, which suffices
for every acyclic heap. (Python's `deepcopy` also preserves internal
aliasing through its memo dict; this model copies shared substructure
twice. No claim observes aliasing inside the copy, only aliasing with the
caller's original values, which both treatments sever identically.) -/

/-- Deep-copy each value of an association list in order, threading the
heap, with the given copier for single values. -/
def dcEntriesWith (dc : PyHeap → PyVal → Option (PyHeap × PyVal)) :
    PyHeap → List (String × PyVal) → Option (PyHeap × List (String × PyVal))
  | h, [] => some (h, [])
  | h, (k, v) :: rest =>
    match dc h v with
    | none => none
    | some (h1, v1) =>
      match dcEntriesWith dc h1 rest with
      | none => none
      | some (h2, rest1) => some (h2, (k, v1) :: rest1)

/-- Deep-copy each value of a list in order, threading the heap. -/
def dcListWith (dc : PyHeap → PyVal → Option (PyHeap × PyVal)) :
    PyHeap → List PyVal → Option (PyHeap × List PyVal)
  | h, [] => some (h, [])
  | h, v :: rest =>
    match dc h v with
    | none => none
    | some (h1, v1) =>
      match dcListWith dc h1 rest with
      | none => none
      | some (h2, rest1) => some (h2, v1 :: rest1)

/-- `copy.deepcopy` of one value: immutable leaves and class/function
objects are returned unchanged; a reference is copied structurally into a
freshly allocated cell. -/
def deepcopyV : Nat → PyHeap → PyVal → Option (PyHeap × PyVal)
  | fuel, h, .ref a =>
    (match h[a]?, fuel with
     | none, _ => none
     | some _, 0 => none
     | some (.dict es), Nat.succ f =>
       match dcEntriesWith (deepcopyV f) h es with
       | none => none
       | some (h1, es1) => some (h1 ++ [.dict es1], .ref h1.length)
     | some (.list vs), Nat.succ f =>
       match dcListWith (deepcopyV f) h vs with
       | none => none
       | some (h1, vs1) => some (h1 ++ [.list vs1], .ref h1.length))
  | _, h, v => some (h, v)

/-! ## The default builder (`build_from_config`, lines 29-76) -/

/-- What an invocation of a resolved class or function does: given the
heap and the keyword arguments it receives (the entries of the unpacked
config dict), it yields the heap afterwards and either a value or a
raised exception. This is the registered component's own code, external
to the module under verification, so `build_from_config` takes it as a
parameter. -/
structure CallOut where
  heap : PyHeap
  res : Except PyErr PyVal

/-- The `registry` argument of `build_from_config` can be any Python
value; only `Registry` instances pass the `isinstance` check. -/
inductive RegArg where
  | reg (r : Registry)
  | notReg (typeName : String)

/-- The outcome of `build_from_config`: the heap at return or at raise
time, and the returned value or the exception. -/
structure BuildOut where
  heap : PyHeap
  res : Except PyErr PyVal

/-- Line 65-76 dispatch on a resolved entry that is a class or function:
invoke it and wrap any exception it raises, naming the entity and
chaining the original exception as the cause. -/
def invokeEntry (call : PyObj → PyHeap → List (String × PyVal) → CallOut)
    (o : PyObj) (h : PyHeap) (args : List (String × PyVal)) : BuildOut :=
  let out := call o h args
  match out.res with
  | .ok v => ⟨out.heap, .ok v⟩
  | .error e =>
    match o with
    | .cls _ => ⟨out.heap, .error (.initClassFailed o.reprStr e)⟩
    | _ => ⟨out.heap, .error (.invokeFuncFailed o.reprStr e)⟩

/-- Source `build_from_config` (lines 29-76). `call` is the semantics of
invoking a class or function (external code); `kwargs` are the extra
keyword arguments, whose values the caller supplies by reference — the
source merges them into the copied config without copying them
(`cfg.update(kwargs)`, line 62-63; the `is not None` guard is always true
of a `**kwargs` dict). The steps in order: the three shape checks on the
original arguments, the deep copy, `pop("type")` (which mutates the
copied dict cell), resolution of a string type through `registry.get`,
the kwargs merge (mutating the copied cell again), and the dispatch. -/
def build_from_config (call : PyObj → PyHeap → List (String × PyVal) → CallOut)
    (h0 : PyHeap) (cfg : PyVal) (registry : RegArg)
    (kwargs : List (String × PyVal)) : BuildOut :=
  match cfg with
  | .ref a0 =>
    match h0[a0]? with
    | some (.dict es) =>
      if (odGet es "type").isNone then ⟨h0, .error (.cfgNoType es)⟩
      else
        match registry with
        | .notReg t => ⟨h0, .error (.regNotRegistry t)⟩
        | .reg r =>
          match dcEntriesWith (deepcopyV h0.length) h0 es with
          | none => ⟨h0, .error .copyDepthExceeded⟩
          | some (hc, esc) =>
            let a1 := hc.length
            let h1 := hc ++ [PyCell.dict esc]
            match odGet esc "type" with
            | none => ⟨h1, .error (.popMissing "type")⟩
            | some req_type =>
              let es2 := odRemove esc "type"
              let h2 := h1.set a1 (PyCell.dict es2)
              let resolved : Except PyErr PyVal :=
                match req_type with
                | .str s =>
                  match r.get s with
                  | none => .error (.typeNotFound s r.name)
                  | some o => .ok (.obj o)
                | v => .ok v
              match resolved with
              | .error e => ⟨h2, .error e⟩
              | .ok req_type_entry =>
                let es3 := odUpdate es2 kwargs
                let h3 := h2.set a1 (PyCell.dict es3)
                match req_type_entry with
                | .obj (.cls c) => invokeEntry call (.cls c) h3 es3
                | .obj (.fn f) => invokeEntry call (.fn f) h3 es3
                | v => ⟨h3, .error (.typeNotStrOrClass (v.pyType h3))⟩
    | _ => ⟨h0, .error (.cfgNotDict (cfg.pyType h0))⟩
  | _ => ⟨h0, .error (.cfgNotDict (cfg.pyType h0))⟩

/-! ## Reachability and heap regions

These notions carry the aliasing argument: `Reaches h v b` holds when
the cell at address `b` belongs to the object graph of the value `v`, so
"the caller's config, including any nested mutable value inside it, is
unchanged" is "every cell reachable from the config value is unchanged",
and "the constructed entity mutates only the arguments it receives" is
"every changed pre-existing cell is reachable from some argument value". -/

/-- The values stored directly in a cell. -/
def cellVals : PyCell → List PyVal
  | .dict es => es.map Prod.snd
  | .list vs => vs

/-- Every reference in `v` (there is at most one) is at least `n`. -/
def valGE (v : PyVal) (n : Nat) : Prop :=
  match v with
  | .ref a => n ≤ a
  | _ => True

/-- Every reference in `v` is below `m`. -/
def valLT (v : PyVal) (m : Nat) : Prop :=
  match v with
  | .ref a => a < m
  | _ => True

/-- Cells of `h` at addresses in `[n, h.length)` hold only values whose
references are again in `[n, h.length)`: the region above `n` is closed. -/
def regionBand (h : PyHeap) (n : Nat) : Prop :=
  ∀ b c, n ≤ b → h[b]? = some c → ∀ v ∈ cellVals c, valGE v n ∧ valLT v h.length

/-- Cells of `h` below `n` hold only references below `n`. -/
def lowBand (h : PyHeap) (n : Nat) : Prop :=
  ∀ b c, b < n → h[b]? = some c → ∀ v ∈ cellVals c, valLT v n

/-- A well-formed heap: no dangling references (every stored reference
points at an existing cell), as in a real Python heap. -/
def PyHeap.WF (h : PyHeap) : Prop := lowBand h h.length

/-- The cell at `b` is part of the object graph of value `v` in heap `h`:
`v` is a reference to `b` itself, or a value stored in a container `v`
references reaches `b`. -/
inductive Reaches (h : PyHeap) : PyVal → Nat → Prop where
  | here (a : Nat) : Reaches h (.ref a) a
  | inDict (a b : Nat) (es : List (String × PyVal)) (k : String) (v : PyVal) :
      h[a]? = some (.dict es) → (k, v) ∈ es → Reaches h v b → Reaches h (.ref a) b
  | inList (a b : Nat) (vs : List PyVal) (v : PyVal) :
      h[a]? = some (.list vs) → v ∈ vs → Reaches h v b → Reaches h (.ref a) b

theorem valLT_mono {v : PyVal} {m m' : Nat} (hm : m ≤ m') (hv : valLT v m) :
    valLT v m' := by
  cases v
  case ref a => exact Nat.lt_of_lt_of_le hv hm
  all_goals trivial

/-- Reachability from a value whose references stay in a closed region
never leaves the region (addresses stay at least `n`). -/
theorem reach_ge_of_band {h : PyHeap} {n m : Nat}
    (hband : ∀ b c, n ≤ b → b < m → h[b]? = some c →
      ∀ v ∈ cellVals c, valGE v n ∧ valLT v m) :
    ∀ {v : PyVal} {b : Nat}, valGE v n → valLT v m → Reaches h v b → n ≤ b := by
  intro v b hge hlt hr
  induction hr with
  | here a => exact hge
  | inDict a b es k v hcell hmem _hr ih =>
    have hb := hband a (.dict es) hge hlt hcell v
      (by simpa [cellVals] using ⟨k, hmem⟩)
    exact ih hb.1 hb.2
  | inList a b vs v hcell hmem _hr ih =>
    have hb := hband a (.list vs) hge hlt hcell v (by simpa [cellVals] using hmem)
    exact ih hb.1 hb.2

/-- In a heap that agrees with `h` below `n`, where `h`'s low region is
closed, reachability from a low value is reachability in `h` and stays
low. -/
theorem reach_transport_low {h h2 : PyHeap} {n : Nat}
    (hagree : ∀ b, b < n → h2[b]? = h[b]?)
    (hlow : lowBand h n) :
    ∀ {v : PyVal} {b : Nat}, valLT v n → Reaches h2 v b →
      Reaches h v b ∧ b < n := by
  intro v b hlt hr
  induction hr with
  | here a => exact ⟨.here a, hlt⟩
  | inDict a b es k v hcell hmem _hr ih =>
    have ha : a < n := hlt
    have hcell' : h[a]? = some (.dict es) := (hagree a ha).symm.trans hcell
    have hv : valLT v n :=
      hlow a (.dict es) ha hcell' v (by simpa [cellVals] using ⟨k, hmem⟩)
    obtain ⟨hr', hb⟩ := ih hv
    exact ⟨.inDict a b es k v hcell' hmem hr', hb⟩
  | inList a b vs v hcell hmem _hr ih =>
    have ha : a < n := hlt
    have hcell' : h[a]? = some (.list vs) := (hagree a ha).symm.trans hcell
    have hv : valLT v n := hlow a (.list vs) ha hcell' v (by simpa [cellVals] using hmem)
    obtain ⟨hr', hb⟩ := ih hv
    exact ⟨.inList a b vs v hcell' hmem hr', hb⟩

/-! ## Ordered-dict lemmas -/

theorem odGet_eq_none {es : List (String × α)} {k : String} :
    odGet es k = none ↔ ∀ p ∈ es, p.1 ≠ k := by
  simp [odGet]
  constructor
  · intro hfind
    cases hf : es.find? (fun p => p.1 == k) with
    | none =>
      intro a b hmem hk
      have := List.find?_eq_none.mp hf (a, b) hmem
      simp [hk] at this
    | some p => simp [hf] at hfind
  · intro hall
    have : es.find? (fun p => p.1 == k) = none :=
      List.find?_eq_none.mpr (fun p hp => by simpa using hall p.1 p.2 hp)
    simp [this]

theorem odGet_mem {es : List (String × α)} {k : String} {v : α}
    (hget : odGet es k = some v) : (k, v) ∈ es := by
  unfold odGet at hget
  cases hf : es.find? (fun p => p.1 == k) with
  | none => simp [hf] at hget
  | some p =>
    simp [hf] at hget
    have hmem := List.mem_of_find?_eq_some hf
    have hkey : p.1 = k := by
      have := List.find?_some hf
      simpa using this
    cases p
    simp_all

theorem odSet_values {es : List (String × α)} {k : String} {v w : α}
    (hmem : w ∈ (odSet es k v).map Prod.snd) :
    w = v ∨ w ∈ es.map Prod.snd := by
  unfold odSet at hmem
  by_cases hc : es.any (fun p => p.1 == k)
  · simp only [hc, if_true, List.map_map, List.mem_map, Function.comp] at hmem
    obtain ⟨p, hp, hw⟩ := hmem
    by_cases hk : p.1 = k
    · rw [if_pos (by simpa using hk)] at hw
      exact Or.inl hw.symm
    · rw [if_neg (by simpa using hk)] at hw
      right
      subst hw
      exact List.mem_map.mpr ⟨p, hp, rfl⟩
  · simp only [hc, if_false, Bool.false_eq_true, List.map_append, List.mem_append,
      List.map_cons, List.map_nil, List.mem_singleton] at hmem
    rcases hmem with h | h
    · exact Or.inr h
    · exact Or.inl h

theorem odUpdate_values {es kvs : List (String × α)} {w : α}
    (hmem : w ∈ (odUpdate es kvs).map Prod.snd) :
    w ∈ es.map Prod.snd ∨ w ∈ kvs.map Prod.snd := by
  induction kvs generalizing es with
  | nil => exact Or.inl (by simpa [odUpdate] using hmem)
  | cons p rest ih =>
    have hmem' : w ∈ (odUpdate (odSet es p.1 p.2) rest).map Prod.snd := by
      simpa [odUpdate] using hmem
    rcases ih hmem' with h | h
    · rcases odSet_values h with h' | h'
      · right; subst h'; exact List.mem_map.mpr ⟨p, by simp, rfl⟩
      · left; exact h'
    · right; simp [h]

theorem odRemove_values {es : List (String × α)} {k : String} {w : α}
    (hmem : w ∈ (odRemove es k).map Prod.snd) : w ∈ es.map Prod.snd := by
  unfold odRemove at hmem
  obtain ⟨p, hp, hw⟩ := List.mem_map.mp hmem
  exact List.mem_map.mpr ⟨p, (List.mem_filter.mp hp).1, hw⟩

/-! ## What `copy.deepcopy` guarantees

The copy of a value allocates only fresh cells: the returned value's
reference (if any) and every reference inside the newly allocated cells
stay at or above the old heap length, while every pre-existing cell is
untouched. Immutable leaves (and class/function objects) come back
unchanged. -/

/-- Relation between an original dict entry and its deep copy, with the
copy's references confined to `[n, m)`. -/
def dcRel (n m : Nat) (p q : String × PyVal) : Prop :=
  p.1 = q.1 ∧ valGE q.2 n ∧ valLT q.2 m ∧
    (p.2.isRef = false → q.2 = p.2) ∧ (p.2.isRef = true → q.2.isRef = true)

/-- Postcondition of copying one value starting from heap `h` whose
region at or above `n` is closed. -/
def DcValPost (n : Nat) (h : PyHeap) (v : PyVal) (out : PyHeap × PyVal) : Prop :=
  h.length ≤ out.1.length ∧ (∀ b, b < h.length → out.1[b]? = h[b]?) ∧
    regionBand out.1 n ∧ valGE out.2 n ∧ valLT out.2 out.1.length ∧
    (v.isRef = false → out = (h, v)) ∧ (v.isRef = true → out.2.isRef = true)

theorem forall2_dcRel_bounds {n m : Nat} {es es1 : List (String × PyVal)}
    (hrel : List.Forall₂ (dcRel n m) es es1) :
    ∀ w ∈ es1.map Prod.snd, valGE w n ∧ valLT w m := by
  induction hrel with
  | nil => intro w hw; simp at hw
  | cons hpq _ ih =>
    intro w hw
    simp only [List.map_cons, List.mem_cons] at hw
    rcases hw with hw | hw
    · subst hw; exact ⟨hpq.2.1, hpq.2.2.1⟩
    · exact ih w hw

theorem forall2_dcRelV_bounds {n m : Nat} {vs vs1 : List PyVal}
    (hrel : List.Forall₂ (fun _ q => valGE q n ∧ valLT q m) vs vs1) :
    ∀ w ∈ vs1, valGE w n ∧ valLT w m := by
  induction hrel with
  | nil => intro w hw; simp at hw
  | cons hpq _ ih =>
    intro w hw
    rcases List.mem_cons.mp hw with hw | hw
    · subst hw; exact hpq
    · exact ih w hw

theorem dcEntriesWith_post {dc : PyHeap → PyVal → Option (PyHeap × PyVal)} {n : Nat}
    (hdc : ∀ h v out, n ≤ h.length → regionBand h n → dc h v = some out →
      DcValPost n h v out) :
    ∀ (es : List (String × PyVal)) (h : PyHeap) (out :
        PyHeap × List (String × PyVal)),
      n ≤ h.length → regionBand h n → dcEntriesWith dc h es = some out →
      h.length ≤ out.1.length ∧ (∀ b, b < h.length → out.1[b]? = h[b]?) ∧
        regionBand out.1 n ∧ List.Forall₂ (dcRel n out.1.length) es out.2 := by
  intro es
  induction es with
  | nil =>
    intro h out hn hband hdone
    simp only [dcEntriesWith] at hdone
    cases hdone
    exact ⟨le_refl _, fun b _ => rfl, hband, List.Forall₂.nil⟩
  | cons p rest ih =>
    intro h out hn hband hdone
    obtain ⟨k, v⟩ := p
    simp only [dcEntriesWith] at hdone
    cases hv : dc h v with
    | none => rw [hv] at hdone; cases hdone
    | some o1 =>
      rw [hv] at hdone
      obtain ⟨h1, v1⟩ := o1
      dsimp only at hdone
      cases hrest : dcEntriesWith dc h1 rest with
      | none => rw [hrest] at hdone; cases hdone
      | some o2 =>
        rw [hrest] at hdone
        dsimp only at hdone
        obtain ⟨h2, rest1⟩ := o2
        cases hdone
        obtain ⟨hlen1, hagree1, hband1, hge1, hlt1, hid1, href1⟩ :=
          hdc h v (h1, v1) hn hband hv
        obtain ⟨hlen2, hagree2, hband2, hrel2⟩ :=
          ih h1 (h2, rest1) (le_trans hn hlen1) hband1 hrest
        refine ⟨le_trans hlen1 hlen2, ?_, hband2, ?_⟩
        · intro b hb
          exact (hagree2 b (lt_of_lt_of_le hb hlen1)).trans (hagree1 b hb)
        · refine List.Forall₂.cons ⟨rfl, hge1, valLT_mono hlen2 hlt1, ?_, ?_⟩ hrel2
          · intro hnr
            have := hid1 hnr
            exact (Prod.mk.injEq _ _ _ _ ▸ this).2
          · exact href1

theorem dcListWith_post {dc : PyHeap → PyVal → Option (PyHeap × PyVal)} {n : Nat}
    (hdc : ∀ h v out, n ≤ h.length → regionBand h n → dc h v = some out →
      DcValPost n h v out) :
    ∀ (vs : List PyVal) (h : PyHeap) (out : PyHeap × List PyVal),
      n ≤ h.length → regionBand h n → dcListWith dc h vs = some out →
      h.length ≤ out.1.length ∧ (∀ b, b < h.length → out.1[b]? = h[b]?) ∧
        regionBand out.1 n ∧
        List.Forall₂ (fun _ q => valGE q n ∧ valLT q out.1.length) vs out.2 := by
  intro vs
  induction vs with
  | nil =>
    intro h out hn hband hdone
    simp only [dcListWith] at hdone
    cases hdone
    exact ⟨le_refl _, fun b _ => rfl, hband, List.Forall₂.nil⟩
  | cons v rest ih =>
    intro h out hn hband hdone
    simp only [dcListWith] at hdone
    cases hv : dc h v with
    | none => rw [hv] at hdone; cases hdone
    | some o1 =>
      rw [hv] at hdone
      obtain ⟨h1, v1⟩ := o1
      dsimp only at hdone
      cases hrest : dcListWith dc h1 rest with
      | none => rw [hrest] at hdone; cases hdone
      | some o2 =>
        rw [hrest] at hdone
        dsimp only at hdone
        obtain ⟨h2, rest1⟩ := o2
        cases hdone
        obtain ⟨hlen1, hagree1, hband1, hge1, hlt1, _hid1, _href1⟩ :=
          hdc h v (h1, v1) hn hband hv
        obtain ⟨hlen2, hagree2, hband2, hrel2⟩ :=
          ih h1 (h2, rest1) (le_trans hn hlen1) hband1 hrest
        refine ⟨le_trans hlen1 hlen2, ?_, hband2, ?_⟩
        · intro b hb
          exact (hagree2 b (lt_of_lt_of_le hb hlen1)).trans (hagree1 b hb)
        · exact List.Forall₂.cons ⟨hge1, valLT_mono hlen2 hlt1⟩ hrel2

theorem heap_get_append_lt {h ext : PyHeap} {b : Nat} (hb : b < h.length) :
    (h ++ ext)[b]? = h[b]? := by
  simp [List.getElem?_append, hb]

theorem heap_get_append_self {h : PyHeap} {c : PyCell} :
    (h ++ [c])[h.length]? = some c := by
  simp [List.getElem?_append]

theorem heap_get_append_high {h : PyHeap} {c : PyCell} {b : Nat}
    (hb : h.length + 1 ≤ b) : (h ++ [c])[b]? = none := by
  apply List.getElem?_eq_none
  simp
  omega

theorem dcValPost_of_nonref {n : Nat} {h : PyHeap} {v : PyVal}
    (hband : regionBand h n) (hnr : v.isRef = false) :
    DcValPost n h v (h, v) := by
  refine ⟨le_refl _, fun b _ => rfl, hband, ?_, ?_, fun _ => rfl, ?_⟩
  · cases v <;> trivial
  · cases v <;> trivial
  · intro hr
    rw [hr] at hnr
    exact Bool.noConfusion hnr

theorem deepcopyV_post :
    ∀ (fuel : Nat) {n : Nat} (h : PyHeap) (v : PyVal) (out : PyHeap × PyVal),
      n ≤ h.length → regionBand h n → deepcopyV fuel h v = some out →
      DcValPost n h v out := by
  intro fuel
  induction fuel with
  | zero =>
    intro n h v out hn hband hcopy
    cases v with
    | ref a =>
      unfold deepcopyV at hcopy
      cases ha : h[a]? with
      | none => rw [ha] at hcopy; cases hcopy
      | some c => rw [ha] at hcopy; cases c <;> cases hcopy
    | pyNone => simp [deepcopyV] at hcopy; rw [← hcopy]; exact dcValPost_of_nonref hband rfl
    | int m => simp [deepcopyV] at hcopy; rw [← hcopy]; exact dcValPost_of_nonref hband rfl
    | str s => simp [deepcopyV] at hcopy; rw [← hcopy]; exact dcValPost_of_nonref hband rfl
    | bool b => simp [deepcopyV] at hcopy; rw [← hcopy]; exact dcValPost_of_nonref hband rfl
    | obj o => simp [deepcopyV] at hcopy; rw [← hcopy]; exact dcValPost_of_nonref hband rfl
  | succ f ih =>
    intro n h v out hn hband hcopy
    cases v with
    | pyNone => simp [deepcopyV] at hcopy; rw [← hcopy]; exact dcValPost_of_nonref hband rfl
    | int m => simp [deepcopyV] at hcopy; rw [← hcopy]; exact dcValPost_of_nonref hband rfl
    | str s => simp [deepcopyV] at hcopy; rw [← hcopy]; exact dcValPost_of_nonref hband rfl
    | bool b => simp [deepcopyV] at hcopy; rw [← hcopy]; exact dcValPost_of_nonref hband rfl
    | obj o => simp [deepcopyV] at hcopy; rw [← hcopy]; exact dcValPost_of_nonref hband rfl
    | ref a =>
      unfold deepcopyV at hcopy
      cases ha : h[a]? with
      | none => rw [ha] at hcopy; cases hcopy
      | some c =>
        rw [ha] at hcopy
        cases c with
        | dict es =>
          dsimp only at hcopy
          cases hdc : dcEntriesWith (deepcopyV f) h es with
          | none => rw [hdc] at hcopy; cases hcopy
          | some o1 =>
            rw [hdc] at hcopy
            obtain ⟨h1, es1⟩ := o1
            dsimp only at hcopy
            cases hcopy
            obtain ⟨hlen, hagree, hband1, hrel⟩ :=
              dcEntriesWith_post (fun h v out hn hb hc => ih h v out hn hb hc)
                es h (h1, es1) hn hband hdc
            dsimp only at hlen hagree hband1 hrel
            refine ⟨?_, ?_, ?_, ?_, ?_, ?_, fun _ => rfl⟩
            · simp
              omega
            · intro b hb
              rw [heap_get_append_lt (lt_of_lt_of_le hb hlen)]
              exact hagree b hb
            · intro b c hbn hcell w hw
              by_cases hblt : b < h1.length
              · rw [heap_get_append_lt hblt] at hcell
                have := hband1 b c hbn hcell w hw
                refine ⟨this.1, valLT_mono (by simp) this.2⟩
              · by_cases hbe : b = h1.length
                · subst hbe
                  rw [heap_get_append_self] at hcell
                  cases hcell
                  have := forall2_dcRel_bounds hrel w (by simpa [cellVals] using hw)
                  refine ⟨this.1, valLT_mono (by simp) this.2⟩
                · rw [heap_get_append_high (by omega)] at hcell
                  cases hcell
            · show n ≤ h1.length
              exact le_trans hn hlen
            · show h1.length < (h1 ++ [PyCell.dict es1]).length
              simp
            · intro hnr
              exact Bool.noConfusion hnr
        | list vs =>
          dsimp only at hcopy
          cases hdc : dcListWith (deepcopyV f) h vs with
          | none => rw [hdc] at hcopy; cases hcopy
          | some o1 =>
            rw [hdc] at hcopy
            obtain ⟨h1, vs1⟩ := o1
            dsimp only at hcopy
            cases hcopy
            obtain ⟨hlen, hagree, hband1, hrel⟩ :=
              dcListWith_post (fun h v out hn hb hc => ih h v out hn hb hc)
                vs h (h1, vs1) hn hband hdc
            dsimp only at hlen hagree hband1 hrel
            refine ⟨?_, ?_, ?_, ?_, ?_, ?_, fun _ => rfl⟩
            · simp
              omega
            · intro b hb
              rw [heap_get_append_lt (lt_of_lt_of_le hb hlen)]
              exact hagree b hb
            · intro b c hbn hcell w hw
              by_cases hblt : b < h1.length
              · rw [heap_get_append_lt hblt] at hcell
                have := hband1 b c hbn hcell w hw
                refine ⟨this.1, valLT_mono (by simp) this.2⟩
              · by_cases hbe : b = h1.length
                · subst hbe
                  rw [heap_get_append_self] at hcell
                  cases hcell
                  have := forall2_dcRelV_bounds hrel w (by simpa [cellVals] using hw)
                  refine ⟨this.1, valLT_mono (by simp) this.2⟩
                · rw [heap_get_append_high (by omega)] at hcell
                  cases hcell
            · show n ≤ h1.length
              exact le_trans hn hlen
            · show h1.length < (h1 ++ [PyCell.list vs1]).length
              simp
            · intro hnr
              exact Bool.noConfusion hnr

theorem regionBand_self (h : PyHeap) : regionBand h h.length := by
  intro b c hb hcell
  rw [List.getElem?_eq_none hb] at hcell
  cases hcell

theorem invokeEntry_heap (call : PyObj → PyHeap → List (String × PyVal) → CallOut)
    (o : PyObj) (h : PyHeap) (args : List (String × PyVal)) :
    (invokeEntry call o h args).heap = (call o h args).heap := by
  unfold invokeEntry
  cases hres : (call o h args).res with
  | ok v => simp [hres]
  | error e => cases o <;> simp [hres]

theorem lt_length_of_get_some {h : PyHeap} {a : Nat} {c : PyCell}
    (ha : h[a]? = some c) : a < h.length := by
  by_contra hc
  rw [List.getElem?_eq_none (le_of_not_lt hc)] at ha
  cases ha

/-- Key frame property of the builder: under the deep-copy discipline,
every cell reachable from the caller's config value is untouched by the
whole of `build_from_config` — provided the extra keyword overrides do
not alias the config's own mutable content (the source merges `kwargs`
into the copy without copying them) and the invoked entity mutates only
cells reachable from the argument values it receives (plus fresh ones). -/
theorem build_from_config_frame
    (call : PyObj → PyHeap → List (String × PyVal) → CallOut)
    (h0 : PyHeap) (cfg : PyVal) (registry : RegArg)
    (kwargs : List (String × PyVal))
    (hwf : PyHeap.WF h0)
    (hkw : ∀ p ∈ kwargs, valLT p.2 h0.length)
    (hdisj : ∀ p ∈ kwargs, ∀ b, Reaches h0 p.2 b → ¬ Reaches h0 cfg b)
    (hcall : ∀ o h args b, b < h.length →
      (call o h args).heap[b]? ≠ h[b]? → ∃ v ∈ args.map Prod.snd, Reaches h v b) :
    ∀ b, Reaches h0 cfg b →
      (build_from_config call h0 cfg registry kwargs).heap[b]? = h0[b]? := by
  intro b hb
  unfold build_from_config
  cases cfg with
  | pyNone => rfl
  | int m => rfl
  | str s => rfl
  | bool bb => rfl
  | obj o => rfl
  | ref a0 =>
    dsimp only
    cases ha0 : h0[a0]? with
    | none => rfl
    | some c0 =>
      cases c0 with
      | list vs => rfl
      | dict es =>
        dsimp only
        have ha0lt : a0 < h0.length := lt_length_of_get_some ha0
        have hcfglt : valLT (PyVal.ref a0) h0.length := ha0lt
        have hblt : b < h0.length :=
          (reach_transport_low (fun _ _ => rfl) hwf hcfglt hb).2
        cases hT : (odGet es "type").isNone with
        | true => rfl
        | false =>
          simp only [Bool.false_eq_true, if_false]
          cases registry with
          | notReg t => rfl
          | reg r =>
            dsimp only
            cases hcopy : dcEntriesWith (deepcopyV h0.length) h0 es with
            | none => rfl
            | some oc =>
              obtain ⟨hc, esc⟩ := oc
              dsimp only
              obtain ⟨hlen, hagree, hbandc, hrel⟩ :=
                dcEntriesWith_post
                  (fun h v out hn hbnd hcp => deepcopyV_post h0.length h v out hn hbnd hcp)
                  es h0 (hc, esc) (le_refl _) (regionBand_self h0) hcopy
              dsimp only at hlen hagree hbandc hrel
              have hagree1 : ∀ bb, bb < h0.length →
                  ((hc ++ [PyCell.dict esc]).set hc.length
                    (PyCell.dict (odRemove esc "type")))[bb]? = h0[bb]? := by
                intro bb hbb
                rw [List.getElem?_set_ne (by omega),
                  heap_get_append_lt (by omega)]
                exact hagree bb hbb
              cases hpop : odGet esc "type" with
              | none =>
                rw [heap_get_append_lt (by omega)]
                exact hagree b hblt
              | some req_type =>
                dsimp only
                have hagree3 : ∀ bb, bb < h0.length →
                    (((hc ++ [PyCell.dict esc]).set hc.length
                        (PyCell.dict (odRemove esc "type"))).set hc.length
                      (PyCell.dict (odUpdate (odRemove esc "type") kwargs)))[bb]? =
                    h0[bb]? := by
                  intro bb hbb
                  rw [List.getElem?_set_ne (by omega)]
                  exact hagree1 bb hbb
                set h3 : PyHeap :=
                  ((hc ++ [PyCell.dict esc]).set hc.length
                      (PyCell.dict (odRemove esc "type"))).set hc.length
                    (PyCell.dict (odUpdate (odRemove esc "type") kwargs)) with hh3
                have hband3 : ∀ bb c, h0.length ≤ bb → bb < hc.length →
                    h3[bb]? = some c →
                    ∀ v ∈ cellVals c, valGE v h0.length ∧ valLT v hc.length := by
                  intro bb c hbb1 hbb2 hcell v hv
                  rw [hh3, List.getElem?_set_ne (by omega),
                    List.getElem?_set_ne (by omega),
                    heap_get_append_lt (by omega)] at hcell
                  exact hbandc bb c hbb1 hcell v hv
                have hcallheap : ∀ o,
                    (call o h3 (odUpdate (odRemove esc "type") kwargs)).heap[b]? =
                    h0[b]? := by
                  intro o
                  by_cases hch :
                      (call o h3 (odUpdate (odRemove esc "type") kwargs)).heap[b]? =
                      h3[b]?
                  · rw [hch, hh3]
                    exact hagree3 b hblt
                  · exfalso
                    have hlen3 : b < h3.length := by
                      rw [hh3]
                      simp
                      omega
                    obtain ⟨v, hvmem, hvreach⟩ :=
                      hcall o h3 (odUpdate (odRemove esc "type") kwargs) b hlen3 hch
                    rcases odUpdate_values hvmem with hves | hvkw
                    · have hvb := forall2_dcRel_bounds hrel v (odRemove_values hves)
                      have : h0.length ≤ b :=
                        reach_ge_of_band hband3 hvb.1 hvb.2 hvreach
                      omega
                    · obtain ⟨p, hpmem, hpv⟩ := List.mem_map.mp hvkw
                      have hvlt : valLT v h0.length := by
                        rw [← hpv]
                        exact hkw p hpmem
                      have hreach0 : Reaches h0 v b :=
                        (reach_transport_low (fun bb hbb => hh3 ▸ hagree3 bb hbb)
                          hwf hvlt hvreach).1
                      exact hdisj p hpmem b (hpv ▸ hreach0) hb
                cases req_type with
                | str s =>
                  dsimp only
                  cases hget : r.get s with
                  | none =>
                    dsimp only
                    exact hagree1 b hblt
                  | some o =>
                    dsimp only
                    cases o with
                    | cls c =>
                      dsimp only
                      rw [invokeEntry_heap]
                      exact hcallheap _
                    | fn f =>
                      dsimp only
                      rw [invokeEntry_heap]
                      exact hcallheap _
                    | other t tr nm =>
                      dsimp only
                      exact hagree3 b hblt
                | ref a2 =>
                  dsimp only
                  exact hagree3 b hblt
                | pyNone =>
                  dsimp only
                  exact hagree3 b hblt
                | int m =>
                  dsimp only
                  exact hagree3 b hblt
                | bool bb2 =>
                  dsimp only
                  exact hagree3 b hblt
                | obj o =>
                  dsimp only
                  cases o with
                  | cls c =>
                    dsimp only
                    rw [invokeEntry_heap]
                    exact hcallheap _
                  | fn f =>
                    dsimp only
                    rw [invokeEntry_heap]
                    exact hcallheap _
                  | other t tr nm =>
                    dsimp only
                    exact hagree3 b hblt

/-! ## The builder's input checks (claim C1) -/

theorem odGet_cons {p : String × α} {es : List (String × α)} {k : String} :
    odGet (p :: es) k = if p.1 == k then some p.2 else odGet es k := by
  by_cases h : p.1 == k <;> simp [odGet, List.find?_cons, h]

theorem forall2_dcRel_odGet {n m : Nat} {es es1 : List (String × PyVal)}
    (hrel : List.Forall₂ (dcRel n m) es es1) (k : String) :
    ∀ v, odGet es k = some v → ∃ v1, odGet es1 k = some v1 ∧
      (v.isRef = false → v1 = v) ∧ (v.isRef = true → v1.isRef = true) := by
  induction hrel with
  | nil => intro v hv; simp [odGet] at hv
  | @cons p q es' es1' hpq _hrest ih =>
    intro v hv
    rw [odGet_cons] at hv
    by_cases hk : p.1 == k
    · rw [if_pos hk] at hv
      cases hv
      refine ⟨q.2, ?_, hpq.2.2.2.1, hpq.2.2.2.2⟩
      rw [odGet_cons, if_pos (by rw [← hpq.1]; exact hk)]
    · rw [if_neg hk] at hv
      obtain ⟨v1, hv1, hid, href⟩ := ih v hv
      refine ⟨v1, ?_, hid, href⟩
      rw [odGet_cons, if_neg (by rw [← hpq.1]; exact hk)]
      exact hv1

/-- The four input-check errors of `build_from_config` (lines 46-60),
together with the KeyError `pop` itself would raise for a missing `type`
key: exactly the errors the builder can raise about the shape of its
inputs before reaching the resolved entity. -/
def isShapeCheckErr : PyErr → Bool
  | .cfgNotDict _ => true
  | .cfgNoType _ => true
  | .regNotRegistry _ => true
  | .typeNotFound _ _ => true
  | .popMissing _ => true
  | _ => false

/-- `isShapeCheckErr` on a build result. -/
def resShapeCheckErr : Except PyErr PyVal → Bool
  | .error e => isShapeCheckErr e
  | .ok _ => false

/-- The config value is a reference to a dict cell (`isinstance(cfg,
dict)`). -/
def isDictVal (h : PyHeap) : PyVal → Bool
  | .ref a =>
    match h[a]? with
    | some (.dict _) => true
    | _ => false
  | _ => false

theorem invokeEntry_not_shape
    (call : PyObj → PyHeap → List (String × PyVal) → CallOut)
    (o : PyObj) (h : PyHeap) (args : List (String × PyVal)) :
    resShapeCheckErr (invokeEntry call o h args).res = false := by
  unfold invokeEntry
  cases hres : (call o h args).res with
  | ok v => simp [hres, resShapeCheckErr]
  | error e => cases o <;> simp [hres, resShapeCheckErr, isShapeCheckErr]

/-- Claim C1: `build_from_config` raises a TypeError when the config
argument is not a mapping; a KeyError when the config has no `type`
entry; a TypeError when the registry argument is not a `Registry`
instance; and a KeyError carrying the registry's name when `type` is a
string that resolves to no registered entity. A call that passes all
four checks raises none of these errors (nor the KeyError `pop` would
raise for a missing `type`). -/
theorem claim_C1_build_from_config_checks
    (call : PyObj → PyHeap → List (String × PyVal) → CallOut)
    (h0 : PyHeap) (cfg : PyVal) (registry : RegArg)
    (kwargs : List (String × PyVal)) :
    (isDictVal h0 cfg = false →
      (build_from_config call h0 cfg registry kwargs).res =
        .error (.cfgNotDict (cfg.pyType h0)) ∧
      (PyErr.cfgNotDict (cfg.pyType h0)).excClass = .typeError) ∧
    (∀ a0 es, cfg = .ref a0 → h0[a0]? = some (.dict es) →
      odGet es "type" = none →
      (build_from_config call h0 cfg registry kwargs).res =
        .error (.cfgNoType es) ∧
      (PyErr.cfgNoType es).excClass = .keyError) ∧
    (∀ a0 es rt t, cfg = .ref a0 → h0[a0]? = some (.dict es) →
      odGet es "type" = some rt → registry = .notReg t →
      (build_from_config call h0 cfg registry kwargs).res =
        .error (.regNotRegistry t) ∧
      (PyErr.regNotRegistry t).excClass = .typeError) ∧
    (∀ a0 es s r, cfg = .ref a0 → h0[a0]? = some (.dict es) →
      odGet es "type" = some (.str s) → registry = .reg r →
      r.get s = none →
      (dcEntriesWith (deepcopyV h0.length) h0 es).isSome = true →
      (build_from_config call h0 cfg registry kwargs).res =
        .error (.typeNotFound s r.name) ∧
      (PyErr.typeNotFound s r.name).excClass = .keyError) ∧
    (∀ a0 es rt r, cfg = .ref a0 → h0[a0]? = some (.dict es) →
      odGet es "type" = some rt → registry = .reg r →
      (∀ s, rt = .str s → (r.get s).isSome = true) →
      resShapeCheckErr (build_from_config call h0 cfg registry kwargs).res =
        false) := by
  refine ⟨?_, ?_, ?_, ?_, ?_⟩
  · intro hnd
    refine ⟨?_, rfl⟩
    unfold build_from_config
    cases cfg with
    | ref a0 =>
      dsimp only
      cases ha0 : h0[a0]? with
      | none => rfl
      | some c0 =>
        cases c0 with
        | list vs => rfl
        | dict es => simp [isDictVal, ha0] at hnd
    | pyNone => rfl
    | int m => rfl
    | str s => rfl
    | bool bb => rfl
    | obj o => rfl
  · intro a0 es hcfg ha0 hT
    subst hcfg
    refine ⟨?_, rfl⟩
    unfold build_from_config
    dsimp only
    rw [ha0]
    dsimp only
    rw [hT]
    rfl
  · intro a0 es rt t hcfg ha0 hT hreg
    subst hcfg
    subst hreg
    refine ⟨?_, rfl⟩
    unfold build_from_config
    dsimp only
    rw [ha0]
    dsimp only
    rw [hT]
    rfl
  · intro a0 es s r hcfg ha0 hT hreg hget hdc
    subst hcfg
    subst hreg
    refine ⟨?_, rfl⟩
    unfold build_from_config
    dsimp only
    rw [ha0]
    dsimp only
    rw [hT]
    simp only [Option.isNone_some, Bool.false_eq_true, if_false]
    cases hcopy : dcEntriesWith (deepcopyV h0.length) h0 es with
    | none => rw [hcopy] at hdc; cases hdc
    | some oc =>
      obtain ⟨hc, esc⟩ := oc
      dsimp only
      obtain ⟨_, _, _, hrel⟩ :=
        dcEntriesWith_post
          (fun h v out hn hbnd hcp => deepcopyV_post h0.length h v out hn hbnd hcp)
          es h0 (hc, esc) (le_refl _) (regionBand_self h0) hcopy
      obtain ⟨v1, hv1, hid, _⟩ := forall2_dcRel_odGet hrel "type" _ hT
      have hv1' : v1 = PyVal.str s := hid rfl
      subst hv1'
      rw [hv1]
      dsimp only
      rw [hget]
  · intro a0 es rt r hcfg ha0 hT hreg hres
    subst hcfg
    subst hreg
    unfold build_from_config
    dsimp only
    rw [ha0]
    dsimp only
    rw [hT]
    simp only [Option.isNone_some, Bool.false_eq_true, if_false]
    cases hcopy : dcEntriesWith (deepcopyV h0.length) h0 es with
    | none => rfl
    | some oc =>
      obtain ⟨hc, esc⟩ := oc
      dsimp only
      obtain ⟨_, _, _, hrel⟩ :=
        dcEntriesWith_post
          (fun h v out hn hbnd hcp => deepcopyV_post h0.length h v out hn hbnd hcp)
          es h0 (hc, esc) (le_refl _) (regionBand_self h0) hcopy
      obtain ⟨v1, hv1, hid, href⟩ := forall2_dcRel_odGet hrel "type" _ hT
      rw [hv1]
      dsimp only
      cases rt with
      | str s =>
        have hv1' : v1 = PyVal.str s := hid rfl
        subst hv1'
        dsimp only
        cases hget : r.get s with
        | none =>
          have := hres s rfl
          rw [hget] at this
          cases this
        | some o =>
          dsimp only
          cases o with
          | cls c => exact invokeEntry_not_shape call _ _ _
          | fn f => exact invokeEntry_not_shape call _ _ _
          | other t tr nm => rfl
      | ref a2 =>
        have hv1r : v1.isRef = true := href rfl
        cases v1 with
        | ref a3 =>
          dsimp only
          rfl
        | pyNone => exact Bool.noConfusion hv1r
        | int m => exact Bool.noConfusion hv1r
        | str s2 => exact Bool.noConfusion hv1r
        | bool b2 => exact Bool.noConfusion hv1r
        | obj o => exact Bool.noConfusion hv1r
      | pyNone =>
        have hv1' : v1 = PyVal.pyNone := hid rfl
        subst hv1'
        rfl
      | int m =>
        have hv1' : v1 = PyVal.int m := hid rfl
        subst hv1'
        rfl
      | bool b2 =>
        have hv1' : v1 = PyVal.bool b2 := hid rfl
        subst hv1'
        rfl
      | obj o =>
        have hv1' : v1 = PyVal.obj o := hid rfl
        subst hv1'
        dsimp only
        cases o with
        | cls c => exact invokeEntry_not_shape call _ _ _
        | fn f => exact invokeEntry_not_shape call _ _ _
        | other t tr nm => rfl

/-! ## Wrapping of construction failures (claim C7) -/

/-- The wrapping exception of lines 66-74: `Exception(f"Failed to init
class {entity}, with {e}")` for a class, `Exception(f"Failed to invoke
function {entity}, with {e}")` for a function; the original exception is
chained as the cause. -/
def wrapCallErr (o : PyObj) (e : PyErr) : PyErr :=
  match o with
  | .cls _ => .initClassFailed o.reprStr e
  | _ => .invokeFuncFailed o.reprStr e

/-- Claim C7: when the class or function that `build_from_config`
resolved raises during invocation, the builder re-raises a wrapping
exception that names the failing entity and carries the original
exception as its cause, and it never returns normally. -/
theorem claim_C7_build_wraps_callee_error
    (call : PyObj → PyHeap → List (String × PyVal) → CallOut)
    (h0 : PyHeap) (cfg : PyVal) (kwargs : List (String × PyVal))
    (r : Registry) (a0 : Nat) (es : List (String × PyVal)) (rt : PyVal)
    (o : PyObj)
    (hcfg : cfg = .ref a0) (ha0 : h0[a0]? = some (.dict es))
    (hT : odGet es "type" = some rt)
    (hdc : (dcEntriesWith (deepcopyV h0.length) h0 es).isSome = true)
    (hrt : (∃ s, rt = .str s ∧ r.get s = some o) ∨ rt = .obj o)
    (hko : o.isclass = true ∨ o.isfunction = true)
    (hcall : ∀ h args, ∃ e, (call o h args).res = .error e) :
    ∃ h' args' e, (call o h' args').res = .error e ∧
      (build_from_config call h0 cfg (.reg r) kwargs).res =
        .error (wrapCallErr o e) ∧
      (wrapCallErr o e).excClass = .exception ∧
      ∀ v, (build_from_config call h0 cfg (.reg r) kwargs).res ≠ .ok v := by
  subst hcfg
  unfold build_from_config
  dsimp only
  rw [ha0]
  dsimp only
  rw [hT]
  simp only [Option.isNone_some, Bool.false_eq_true, if_false]
  cases hcopy : dcEntriesWith (deepcopyV h0.length) h0 es with
  | none => rw [hcopy] at hdc; cases hdc
  | some oc =>
    obtain ⟨hc, esc⟩ := oc
    dsimp only
    obtain ⟨_, _, _, hrel⟩ :=
      dcEntriesWith_post
        (fun h v out hn hbnd hcp => deepcopyV_post h0.length h v out hn hbnd hcp)
        es h0 (hc, esc) (le_refl _) (regionBand_self h0) hcopy
    obtain ⟨v1, hv1, hid, _⟩ := forall2_dcRel_odGet hrel "type" _ hT
    rw [hv1]
    dsimp only
    rcases hrt with ⟨s, hs, hgot⟩ | hobj
    · subst hs
      have hv1' : v1 = PyVal.str s := hid rfl
      subst hv1'
      dsimp only
      rw [hgot]
      dsimp only
      cases o with
      | cls c =>
        dsimp only
        obtain ⟨e, he⟩ := hcall
          (((hc ++ [PyCell.dict esc]).set hc.length
              (PyCell.dict (odRemove esc "type"))).set hc.length
            (PyCell.dict (odUpdate (odRemove esc "type") kwargs)))
          (odUpdate (odRemove esc "type") kwargs)
        refine ⟨_, _, e, he, ?_, rfl, ?_⟩
        · unfold invokeEntry
          dsimp only
          rw [he]
          rfl
        · intro v
          unfold invokeEntry
          dsimp only
          rw [he]
          exact fun hcontra => Except.noConfusion hcontra
      | fn f =>
        dsimp only
        obtain ⟨e, he⟩ := hcall
          (((hc ++ [PyCell.dict esc]).set hc.length
              (PyCell.dict (odRemove esc "type"))).set hc.length
            (PyCell.dict (odUpdate (odRemove esc "type") kwargs)))
          (odUpdate (odRemove esc "type") kwargs)
        refine ⟨_, _, e, he, ?_, rfl, ?_⟩
        · unfold invokeEntry
          dsimp only
          rw [he]
          rfl
        · intro v
          unfold invokeEntry
          dsimp only
          rw [he]
          exact fun hcontra => Except.noConfusion hcontra
      | other t tr nm =>
        exfalso
        rcases hko with hk | hk <;> exact Bool.noConfusion hk
    · subst hobj
      have hv1' : v1 = PyVal.obj o := hid rfl
      subst hv1'
      dsimp only
      cases o with
      | cls c =>
        dsimp only
        obtain ⟨e, he⟩ := hcall
          (((hc ++ [PyCell.dict esc]).set hc.length
              (PyCell.dict (odRemove esc "type"))).set hc.length
            (PyCell.dict (odUpdate (odRemove esc "type") kwargs)))
          (odUpdate (odRemove esc "type") kwargs)
        refine ⟨_, _, e, he, ?_, rfl, ?_⟩
        · unfold invokeEntry
          dsimp only
          rw [he]
          rfl
        · intro v
          unfold invokeEntry
          dsimp only
          rw [he]
          exact fun hcontra => Except.noConfusion hcontra
      | fn f =>
        dsimp only
        obtain ⟨e, he⟩ := hcall
          (((hc ++ [PyCell.dict esc]).set hc.length
              (PyCell.dict (odRemove esc "type"))).set hc.length
            (PyCell.dict (odUpdate (odRemove esc "type") kwargs)))
          (odUpdate (odRemove esc "type") kwargs)
        refine ⟨_, _, e, he, ?_, rfl, ?_⟩
        · unfold invokeEntry
          dsimp only
          rw [he]
          rfl
        · intro v
          unfold invokeEntry
          dsimp only
          rw [he]
          exact fun hcontra => Except.noConfusion hcontra
      | other t tr nm =>
        exfalso
        rcases hko with hk | hk <;> exact Bool.noConfusion hk

/-! ## Concrete fixtures for witnesses and counterexamples -/

/-- A concrete class `A` with a trivial constructor signature. -/
def clsA : PyClass :=
  ⟨"A", [⟨"A", [], [("self", ⟨ParamKind.posOrKw, none, none⟩)]⟩]⟩

/-- A registry holding the class `A` under key `"X"`. -/
def regMODELS : Registry :=
  ⟨"MODELS", ["class", "function"], [("X", PyObj.cls clsA)], []⟩

/-- Invocation semantics that construct successfully without touching the
heap. -/
def callOk : PyObj → PyHeap → List (String × PyVal) → CallOut :=
  fun _ h _ => ⟨h, .ok .pyNone⟩

/-- Invocation semantics that always raise. -/
def callBoom : PyObj → PyHeap → List (String × PyVal) → CallOut :=
  fun _ h _ => ⟨h, .error (.calleeErr "boom")⟩

/-- Invocation semantics that mutate the list received as keyword
argument `b` in place (and touch nothing else). -/
def callMut : PyObj → PyHeap → List (String × PyVal) → CallOut :=
  fun _ h args =>
    match odGet args "b" with
    | some (.ref x) => ⟨h.set x (.list [.int 1]), .ok .pyNone⟩
    | _ => ⟨h, .ok .pyNone⟩

/-- A one-cell heap holding the config `{"type": "X"}`. -/
def heapX : PyHeap := [PyCell.dict [("type", PyVal.str "X")]]

/-- A heap holding a list `[0]` at address 0 and the config
`{"type": A, "a": <ref 0>}` at address 1: the nested list is a mutable
value inside the caller's config. -/
def heapAlias : PyHeap :=
  [PyCell.list [PyVal.int 0],
   PyCell.dict [("type", PyVal.obj (.cls clsA)), ("a", PyVal.ref 0)]]

/-- Witness for C1: the concrete call `build_from_config({"type": "X"},
MODELS)` with `X` registered passes all checks and raises none of the
input-check errors. -/
theorem claim_C1_witness :
    resShapeCheckErr
      (build_from_config callOk heapX (.ref 0) (.reg regMODELS) []).res =
      false :=
  (claim_C1_build_from_config_checks callOk heapX (.ref 0)
      (.reg regMODELS) []).2.2.2.2
    0 [("type", PyVal.str "X")] (PyVal.str "X") regMODELS rfl rfl rfl rfl
    (fun s hs => by cases hs; rfl)

/-- Witness for C7: with `X` resolving to class `A` whose construction
always raises, the build returns the wrapping error and no value. -/
theorem claim_C7_witness :
    ∃ h' args' e,
      (callBoom (.cls clsA) h' args').res = .error e ∧
      (build_from_config callBoom heapX (.ref 0) (.reg regMODELS) []).res =
        .error (wrapCallErr (.cls clsA) e) ∧
      (wrapCallErr (.cls clsA) e).excClass = .exception ∧
      ∀ v, (build_from_config callBoom heapX (.ref 0) (.reg regMODELS) []).res ≠
        .ok v :=
  claim_C7_build_wraps_callee_error callBoom heapX (.ref 0) [] regMODELS 0
    [("type", PyVal.str "X")] (PyVal.str "X") (.cls clsA) rfl rfl rfl rfl
    (Or.inl ⟨"X", rfl, rfl⟩) (Or.inl rfl)
    (fun _ _ => ⟨.calleeErr "boom", rfl⟩)

theorem callMut_confined :
    ∀ o h args b, b < h.length → (callMut o h args).heap[b]? ≠ h[b]? →
      ∃ v ∈ args.map Prod.snd, Reaches h v b := by
  intro o h args b _hb hne
  unfold callMut at hne
  cases hget : odGet args "b" with
  | none => rw [hget] at hne; exact absurd rfl hne
  | some v =>
    cases v with
    | ref x =>
      rw [hget] at hne
      dsimp only at hne
      have hbx : b = x := by
        by_contra hne2
        exact hne (List.getElem?_set_ne (fun hxb => hne2 hxb.symm))
      subst hbx
      exact ⟨.ref b, List.mem_map.mpr ⟨("b", .ref b), odGet_mem hget, rfl⟩,
        .here b⟩
    | pyNone => rw [hget] at hne; exact absurd rfl hne
    | int m => rw [hget] at hne; exact absurd rfl hne
    | str s => rw [hget] at hne; exact absurd rfl hne
    | bool bb => rw [hget] at hne; exact absurd rfl hne
    | obj oo => rw [hget] at hne; exact absurd rfl hne

/-- Counterexample to C2 as stated: the extra keyword overrides are
merged into the copied config without being copied (line 62-63), so a
kwargs value aliasing a mutable value nested in the caller's config lets
the constructed entity change the caller's config. Here the entity
mutates only an argument it receives (`callMut_confined`), the list at
address 0 is a nested value of the config at address 1, and after the
build the caller's list has changed from `[0]` to `[1]`. -/
theorem claim_C2_counterexample :
    (∀ o h args b, b < h.length → (callMut o h args).heap[b]? ≠ h[b]? →
      ∃ v ∈ args.map Prod.snd, Reaches h v b) ∧
    Reaches heapAlias (.ref 1) 0 ∧
    heapAlias[0]? = some (.list [.int 0]) ∧
    (build_from_config callMut heapAlias (.ref 1) (.reg regMODELS)
      [("b", .ref 0)]).heap[0]? = some (.list [.int 1]) := by
  refine ⟨callMut_confined, ?_, rfl, rfl⟩
  exact .inDict 1 0 [("type", PyVal.obj (.cls clsA)), ("a", PyVal.ref 0)]
    "a" (.ref 0) rfl (List.mem_cons_of_mem _ (List.mem_cons_self _ _))
    (.here 0)

theorem heapAlias_WF : PyHeap.WF heapAlias := by
  intro b c hb hcell v hv
  have hb2 : b < 2 := hb
  interval_cases b
  · have hc : c = PyCell.list [PyVal.int 0] := by
      have h0 : heapAlias[0]? = some (PyCell.list [PyVal.int 0]) := rfl
      rw [h0] at hcell
      exact (Option.some.inj hcell).symm
    subst hc
    simp [cellVals] at hv
    subst hv
    trivial
  · have hc : c = PyCell.dict
        [("type", PyVal.obj (.cls clsA)), ("a", PyVal.ref 0)] := by
      have h1 : heapAlias[1]? = some (PyCell.dict
          [("type", PyVal.obj (.cls clsA)), ("a", PyVal.ref 0)]) := rfl
      rw [h1] at hcell
      exact (Option.some.inj hcell).symm
    subst hc
    simp [cellVals] at hv
    rcases hv with hv | hv <;> subst hv
    · trivial
    · show (0 : Nat) < List.length heapAlias
      decide

/-- Witness for the amended C2 at a concrete input: no keyword overrides,
a non-mutating entity, and the nested list cell of the config is
untouched by the build. -/
theorem claim_C2_witness :
    (build_from_config callOk heapAlias (.ref 1) (.reg regMODELS) []).heap[0]? =
      heapAlias[0]? :=
  build_from_config_frame callOk heapAlias (.ref 1) (.reg regMODELS) []
    heapAlias_WF
    (fun p hp => absurd hp (List.not_mem_nil p))
    (fun p hp => absurd hp (List.not_mem_nil p))
    (fun _ _ _ _ _ hne => absurd rfl hne)
    0
    (.inDict 1 0 [("type", PyVal.obj (.cls clsA)), ("a", PyVal.ref 0)]
      "a" (.ref 0) rfl (List.mem_cons_of_mem _ (List.mem_cons_self _ _))
      (.here 0))

/-! ## More ordered-dict lemmas (for the registration claims) -/

theorem odGet_map_set_ne {es : List (String × α)} {k k2 : String} {v : α}
    (hne : k2 ≠ k) :
    odGet (es.map (fun p => if p.1 == k then (k, v) else p)) k2 = odGet es k2 := by
  induction es with
  | nil => rfl
  | cons p rest ih =>
    by_cases hp : p.1 == k
    · rw [List.map_cons, if_pos hp, odGet_cons, odGet_cons]
      have h1 : ((k, v).1 == k2) = false := by
        simp
        exact fun h => hne h.symm
      have h2 : (p.1 == k2) = false := by
        simp
        intro h
        rw [h] at hp
        simp at hp
        exact hne hp
      rw [h1, h2]
      simp only [Bool.false_eq_true, if_false]
      exact ih
    · rw [List.map_cons, if_neg hp, odGet_cons, odGet_cons]
      by_cases hp2 : p.1 == k2
      · rw [if_pos hp2, if_pos hp2]
      · rw [if_neg hp2, if_neg hp2]
        exact ih

theorem odGet_append_one_ne {es : List (String × α)} {k k2 : String} {v : α}
    (hne : k2 ≠ k) :
    odGet (es ++ [(k, v)]) k2 = odGet es k2 := by
  induction es with
  | nil =>
    simp only [List.nil_append]
    rw [odGet_cons]
    have h1 : ((k, v).1 == k2) = false := by
      simp
      exact fun h => hne h.symm
    rw [h1]
    rfl
  | cons p rest ih =>
    rw [List.cons_append, odGet_cons, odGet_cons]
    by_cases hp : p.1 == k2
    · rw [if_pos hp, if_pos hp]
    · rw [if_neg hp, if_neg hp]
      exact ih

theorem odGet_set_ne {es : List (String × α)} {k k2 : String} {v : α}
    (hne : k2 ≠ k) : odGet (odSet es k v) k2 = odGet es k2 := by
  unfold odSet
  by_cases hc : es.any (fun p => p.1 == k)
  · rw [if_pos hc]
    exact odGet_map_set_ne hne
  · rw [if_neg hc]
    exact odGet_append_one_ne hne

theorem odGet_set_self {es : List (String × α)} {k : String} {v : α} :
    odGet (odSet es k v) k = some v := by
  unfold odSet
  by_cases hc : es.any (fun p => p.1 == k)
  · rw [if_pos hc]
    induction es with
    | nil => simp at hc
    | cons p rest ih =>
      by_cases hp : p.1 == k
      · rw [List.map_cons, if_pos hp, odGet_cons]
        simp
      · rw [List.map_cons, if_neg hp, odGet_cons]
        have hrest : rest.any (fun p => p.1 == k) := by
          simp only [List.any_cons, hp, Bool.false_or] at hc
          exact hc
        rw [if_neg (by simpa using hp)]
        exact ih hrest
  · rw [if_neg hc]
    induction es with
    | nil =>
      rw [List.nil_append, odGet_cons]
      simp
    | cons p rest ih =>
      have hp : (p.1 == k) = false := by
        simp only [List.any_cons, Bool.or_eq_true, not_or] at hc
        simpa using hc.1
      rw [List.cons_append, odGet_cons, hp]
      simp only [Bool.false_eq_true, if_false]
      exact ih (by simp only [List.any_cons, Bool.or_eq_true, not_or] at hc; simp [hc.2])

/-! ## Registry lookup and registration claims -/

/-- Claim C3: `Registry.get` looks the key up first in the class map
(a truthy class-map entry — classes and functions are always truthy —
shadows any function-map entry under the same key), falls back to the
function map otherwise, returns `none` when the key is in neither map
(the operation is total: it never raises), and registering an entity
under one key leaves the lookup of every other key unchanged. -/
theorem claim_C3_registry_get :
    (∀ (r : Registry) (k : String) (o : PyObj),
      odGet r.class_map k = some o → o.truthyB = true → r.get k = some o) ∧
    (∀ (r : Registry) (k : String),
      odGet r.class_map k = none → r.get k = odGet r.func_map k) ∧
    (∀ (r : Registry) (k : String),
      odGet r.class_map k = none → odGet r.func_map k = none →
      r.get k = none) ∧
    (∀ (r : Registry) (name : Option String) (c : PyClass) (k2 : String),
      k2 ≠ strOr name c.name →
      ((r.register_class name (.cls c)).reg).get k2 = r.get k2) := by
  refine ⟨?_, ?_, ?_, ?_⟩
  · intro r k o hget ht
    unfold Registry.get
    rw [hget]
    dsimp only
    rw [ht]
    simp
  · intro r k hget
    unfold Registry.get
    rw [hget]
  · intro r k hc hf
    unfold Registry.get
    rw [hc, hf]
  · intro r name c k2 hne
    unfold Registry.register_class
    dsimp only
    by_cases hallow : "class" ∈ r.allow_types
    · rw [if_neg (not_not_intro hallow)]
      dsimp only
      unfold Registry.get
      dsimp only
      rw [odGet_set_ne hne]
    · rw [if_pos hallow]

/-- Evaluation of `register_by_hand` on a function with an explicit
non-empty name: the lambda guard does not fire (a name was supplied) and
lines 256-264 run. -/
theorem by_hand_some_fn (r : Registry) (f : PyFunc) (n : String)
    (hallow : "function" ∈ r.allow_types) (hn : n ≠ "") :
    r.register_by_hand (.fn f) (some n) =
      ⟨{ r with func_map := odSet r.func_map n (.fn f) },
       (if (odGet r.func_map n).isSome then
          ["Function " ++ n ++ " already registered, will be replaced"]
        else []), none⟩ := by
  unfold Registry.register_by_hand
  have hcond : (((PyObj.fn f).isfunction &&
      ((PyObj.fn f).objName? == some "<lambda>")) &&
      ((some n : Option String) == none)) = false := by
    simp
  rw [hcond]
  simp only [Bool.false_eq_true, if_false]
  dsimp only [PyObj.objName?]
  unfold strOr
  dsimp only
  rw [if_neg hn]
  unfold Registry.register_by_hand_named
  dsimp only
  rw [if_neg (not_not_intro hallow)]

/-- Evaluation of `register_by_hand` on a class with an explicit
non-empty name: lines 266-274 run. -/
theorem by_hand_some_cls (r : Registry) (c : PyClass) (n : String)
    (hallow : "class" ∈ r.allow_types) (hn : n ≠ "") :
    r.register_by_hand (.cls c) (some n) =
      ⟨{ r with class_map := odSet r.class_map n (.cls c) },
       (if (odGet r.class_map n).isSome then
          ["Class " ++ n ++ " already registered, will be replaced"]
        else []), none⟩ := by
  unfold Registry.register_by_hand
  have hcond : (((PyObj.cls c).isfunction &&
      ((PyObj.cls c).objName? == some "<lambda>")) &&
      ((some n : Option String) == none)) = false := by
    simp [PyObj.isfunction]
  rw [hcond]
  simp only [Bool.false_eq_true, if_false]
  dsimp only [PyObj.objName?]
  unfold strOr
  dsimp only
  rw [if_neg hn]
  unfold Registry.register_by_hand_named
  dsimp only
  rw [if_neg (not_not_intro hallow)]

/-- Claim C8 (amended): registering a second entity under a key already
present in the same map does not raise: a warning is emitted, the entry
in that map is replaced, and `get(key)` returns the second-registered
entity — for class registrations always, for function registrations
provided the key is not shadowed by a class-map entry (class-map entries
take precedence in `get`). -/
theorem claim_C8_last_write_wins :
    (∀ (r : Registry) (name : Option String) (c : PyClass) (o1 : PyObj),
      "class" ∈ r.allow_types →
      odGet r.class_map (strOr name c.name) = some o1 →
      (r.register_class name (.cls c)).err = none ∧
      (r.register_class name (.cls c)).warns ≠ [] ∧
      odGet (r.register_class name (.cls c)).reg.class_map
        (strOr name c.name) = some (.cls c) ∧
      (r.register_class name (.cls c)).reg.get (strOr name c.name) =
        some (.cls c)) ∧
    (∀ (r : Registry) (name : Option String) (f : PyFunc) (o1 : PyObj),
      "function" ∈ r.allow_types →
      odGet r.func_map (strOr name f.name) = some o1 →
      (r.register_function name (.fn f)).err = none ∧
      (r.register_function name (.fn f)).warns ≠ [] ∧
      odGet (r.register_function name (.fn f)).reg.func_map
        (strOr name f.name) = some (.fn f) ∧
      (odGet r.class_map (strOr name f.name) = none →
        (r.register_function name (.fn f)).reg.get (strOr name f.name) =
          some (.fn f))) ∧
    (∀ (r : Registry) (n : String) (f : PyFunc) (o1 : PyObj),
      "function" ∈ r.allow_types → n ≠ "" →
      odGet r.func_map n = some o1 →
      (r.register_by_hand (.fn f) (some n)).err = none ∧
      (r.register_by_hand (.fn f) (some n)).warns ≠ [] ∧
      odGet (r.register_by_hand (.fn f) (some n)).reg.func_map n =
        some (.fn f) ∧
      (odGet r.class_map n = none →
        (r.register_by_hand (.fn f) (some n)).reg.get n = some (.fn f))) ∧
    (∀ (r : Registry) (n : String) (c : PyClass) (o1 : PyObj),
      "class" ∈ r.allow_types → n ≠ "" →
      odGet r.class_map n = some o1 →
      (r.register_by_hand (.cls c) (some n)).err = none ∧
      (r.register_by_hand (.cls c) (some n)).warns ≠ [] ∧
      odGet (r.register_by_hand (.cls c) (some n)).reg.class_map n =
        some (.cls c) ∧
      (r.register_by_hand (.cls c) (some n)).reg.get n = some (.cls c)) := by
  refine ⟨?_, ?_, ?_, ?_⟩
  · intro r name c o1 hallow hprev
    unfold Registry.register_class
    dsimp only
    rw [if_neg (not_not_intro hallow)]
    dsimp only
    rw [hprev]
    refine ⟨rfl, ?_, ?_, ?_⟩
    · simp
    · exact odGet_set_self
    · unfold Registry.get
      dsimp only
      rw [odGet_set_self]
      rfl
  · intro r name f o1 hallow hprev
    unfold Registry.register_function
    dsimp only
    rw [if_neg (not_not_intro hallow)]
    dsimp only
    rw [hprev]
    refine ⟨rfl, ?_, ?_, ?_⟩
    · simp
    · exact odGet_set_self
    · intro hcls
      unfold Registry.get
      dsimp only
      rw [hcls, odGet_set_self]
  · intro r n f o1 hallow hn hprev
    rw [by_hand_some_fn r f n hallow hn]
    dsimp only
    rw [hprev]
    refine ⟨rfl, ?_, ?_, ?_⟩
    · simp
    · exact odGet_set_self
    · intro hcls
      unfold Registry.get
      dsimp only
      rw [hcls, odGet_set_self]
  · intro r n c o1 hallow hn hprev
    rw [by_hand_some_cls r c n hallow hn]
    dsimp only
    rw [hprev]
    refine ⟨rfl, ?_, ?_, ?_⟩
    · simp
    · exact odGet_set_self
    · unfold Registry.get
      dsimp only
      rw [odGet_set_self]
      rfl

/-- Two concrete functions. -/
def fnF1 : PyFunc := ⟨"f1", [], []⟩

/-- A second concrete function, distinct from `fnF1`. -/
def fnF2 : PyFunc := ⟨"f2", [], []⟩

/-- A registry in which the key `"k"` is registered in both maps: as the
class `A` and as the function `f1`. -/
def regShadow : Registry :=
  ⟨"R", ["class", "function"], [("k", PyObj.cls clsA)], [("k", PyObj.fn fnF1)]⟩

/-- Counterexample to C8 as stated: re-registering the function key
`"k"` (already present in the function map) does not raise, warns and
replaces the function-map entry — but `get("k")` returns the class-map
entry, not the second-registered function, because the same key also
lives in the class map and `get` prefers the class map. -/
theorem claim_C8_counterexample :
    (regShadow.register_function (some "k") (.fn fnF2)).err = none ∧
    (regShadow.register_function (some "k") (.fn fnF2)).warns ≠ [] ∧
    odGet (regShadow.register_function (some "k") (.fn fnF2)).reg.func_map "k" =
      some (.fn fnF2) ∧
    (regShadow.register_function (some "k") (.fn fnF2)).reg.get "k" =
      some (.cls clsA) ∧
    PyObj.cls clsA ≠ PyObj.fn fnF2 := by
  refine ⟨rfl, ?_, rfl, rfl, ?_⟩
  · exact List.cons_ne_nil _ _
  · exact fun h => PyObj.noConfusion h

/-- A registry holding only the function `f1` under key `"k"`. -/
def regFuncOnly : Registry :=
  ⟨"R2", ["class", "function"], [], [("k", PyObj.fn fnF1)]⟩

/-- Witness for the amended C8: re-registering `"k"` in the function map
of a registry with no class-map shadowing does not raise, warns, and
`get` returns the second-registered function. -/
theorem claim_C8_witness :
    (regFuncOnly.register_function (some "k") (.fn fnF2)).err = none ∧
    (regFuncOnly.register_function (some "k") (.fn fnF2)).warns ≠ [] ∧
    odGet (regFuncOnly.register_function (some "k") (.fn fnF2)).reg.func_map
      "k" = some (.fn fnF2) ∧
    (regFuncOnly.register_function (some "k") (.fn fnF2)).reg.get "k" =
      some (.fn fnF2) := by
  obtain ⟨h1, h2, h3, h4⟩ :=
    (claim_C8_last_write_wins).2.1 regFuncOnly (some "k") fnF2 (.fn fnF1)
      (by decide) rfl
  exact ⟨h1, h2, h3, h4 rfl⟩

/-- Claim C9: `register_by_hand` on a lambda (an unnamed function value,
`__name__ == "<lambda>"`) with no explicit name raises a ValueError and
leaves the registry unchanged; with an explicit name it succeeds and the
function is retrievable under that name. -/
theorem claim_C9_register_by_hand_lambda :
    (∀ (r : Registry) (f : PyFunc), f.name = "<lambda>" →
      (r.register_by_hand (.fn f) none).err = some .lambdaNeedsName ∧
      (r.register_by_hand (.fn f) none).reg = r ∧
      PyErr.lambdaNeedsName.excClass = .valueError) ∧
    (∀ (r : Registry) (f : PyFunc) (n : String),
      "function" ∈ r.allow_types → n ≠ "" →
      (r.register_by_hand (.fn f) (some n)).err = none ∧
      odGet (r.register_by_hand (.fn f) (some n)).reg.func_map n =
        some (.fn f) ∧
      (odGet r.class_map n = none →
        (r.register_by_hand (.fn f) (some n)).reg.get n = some (.fn f))) := by
  constructor
  · intro r f hname
    unfold Registry.register_by_hand
    have hcond : (((PyObj.fn f).isfunction &&
        ((PyObj.fn f).objName? == some "<lambda>")) &&
        ((none : Option String) == none)) = true := by
      simp [PyObj.isfunction, PyObj.objName?, hname]
    rw [hcond]
    exact ⟨rfl, rfl, rfl⟩
  · intro r f n hallow hn
    rw [by_hand_some_fn r f n hallow hn]
    refine ⟨rfl, odGet_set_self, ?_⟩
    intro hcls
    unfold Registry.get
    dsimp only
    rw [hcls, odGet_set_self]

/-- A lambda value: a function whose `__name__` is `"<lambda>"`. -/
def fnLambda : PyFunc := ⟨"<lambda>", [], []⟩

/-- An empty registry with the default allow list. -/
def regEmpty : Registry := ⟨"R0", ["class", "function"], [], []⟩

/-- Witness for C9 at concrete inputs: the anonymous registration raises
the ValueError; the named one stores and retrieves the lambda. -/
theorem claim_C9_witness :
    (regEmpty.register_by_hand (.fn fnLambda) none).err =
      some .lambdaNeedsName ∧
    (regEmpty.register_by_hand (.fn fnLambda) (some "sq")).err = none ∧
    (regEmpty.register_by_hand (.fn fnLambda) (some "sq")).reg.get "sq" =
      some (.fn fnLambda) := by
  obtain ⟨h1, -, -⟩ :=
    (claim_C9_register_by_hand_lambda).1 regEmpty fnLambda rfl
  obtain ⟨h2, -, h3⟩ :=
    (claim_C9_register_by_hand_lambda).2 regEmpty fnLambda "sq"
      (by decide) (by decide)
  exact ⟨h1, h2, h3 rfl⟩

theorem by_hand_named_atomic (r : Registry) (o : PyObj) (n : String) :
    (Registry.register_by_hand_named r o n).err.isSome = true →
    (Registry.register_by_hand_named r o n).reg.class_map = r.class_map ∧
    (Registry.register_by_hand_named r o n).reg.func_map = r.func_map := by
  unfold Registry.register_by_hand_named
  cases o with
  | fn f =>
    dsimp only
    by_cases hallow : "function" ∈ r.allow_types
    · rw [if_neg (not_not_intro hallow)]
      intro hcontra
      exact Bool.noConfusion hcontra
    · rw [if_pos hallow]
      exact fun _ => ⟨rfl, rfl⟩
  | cls c =>
    dsimp only
    by_cases hallow : "class" ∈ r.allow_types
    · rw [if_neg (not_not_intro hallow)]
      intro hcontra
      exact Bool.noConfusion hcontra
    · rw [if_pos hallow]
      exact fun _ => ⟨rfl, rfl⟩
  | other t tr nm => exact fun _ => ⟨rfl, rfl⟩

/-- Claim C10 (implicit): every registration attempt that raises — wrong
entity kind for the operation, entity kind not in `allow_types`, unnamed
lambda without an explicit name, or a value without a `__name__` — does
so before any map is written: the class map and the function map are
exactly as they were. -/
theorem claim_C10_failed_registration_atomic :
    (∀ (r : Registry) (name : Option String) (o : PyObj),
      (r.register_class name o).err.isSome = true →
      (r.register_class name o).reg.class_map = r.class_map ∧
      (r.register_class name o).reg.func_map = r.func_map) ∧
    (∀ (r : Registry) (name : Option String) (o : PyObj),
      (r.register_function name o).err.isSome = true →
      (r.register_function name o).reg.class_map = r.class_map ∧
      (r.register_function name o).reg.func_map = r.func_map) ∧
    (∀ (r : Registry) (name : Option String) (o : PyObj),
      (r.register_by_hand o name).err.isSome = true →
      (r.register_by_hand o name).reg.class_map = r.class_map ∧
      (r.register_by_hand o name).reg.func_map = r.func_map) := by
  refine ⟨?_, ?_, ?_⟩
  · intro r name o
    unfold Registry.register_class
    cases o with
    | cls c =>
      dsimp only
      by_cases hallow : "class" ∈ r.allow_types
      · rw [if_neg (not_not_intro hallow)]
        intro hcontra
        exact Bool.noConfusion hcontra
      · rw [if_pos hallow]
        exact fun _ => ⟨rfl, rfl⟩
    | fn f => exact fun _ => ⟨rfl, rfl⟩
    | other t tr nm => exact fun _ => ⟨rfl, rfl⟩
  · intro r name o
    unfold Registry.register_function
    cases o with
    | fn f =>
      dsimp only
      by_cases hallow : "function" ∈ r.allow_types
      · rw [if_neg (not_not_intro hallow)]
        intro hcontra
        exact Bool.noConfusion hcontra
      · rw [if_pos hallow]
        exact fun _ => ⟨rfl, rfl⟩
    | cls c => exact fun _ => ⟨rfl, rfl⟩
    | other t tr nm => exact fun _ => ⟨rfl, rfl⟩
  · intro r name o
    unfold Registry.register_by_hand
    cases hcond : ((o.isfunction && (o.objName? == some "<lambda>")) &&
        (name == none)) with
    | true =>
      exact fun _ => ⟨rfl, rfl⟩
    | false =>
      simp only [Bool.false_eq_true, if_false]
      cases hobj : o.objName? with
      | none =>
        cases name with
        | none => exact fun _ => ⟨rfl, rfl⟩
        | some n => exact by_hand_named_atomic r o n
      | some objN =>
        cases name with
        | none => exact by_hand_named_atomic r o _
        | some n => exact by_hand_named_atomic r o _

/-- Witness for C10: registering a function through `register_class`
raises a TypeError and leaves both maps of the registry unchanged. -/
theorem claim_C10_witness :
    (regMODELS.register_class none (.fn fnF1)).err.isSome = true ∧
    (regMODELS.register_class none (.fn fnF1)).reg.class_map =
      regMODELS.class_map ∧
    (regMODELS.register_class none (.fn fnF1)).reg.func_map =
      regMODELS.func_map :=
  ⟨rfl, (claim_C10_failed_registration_atomic).1 regMODELS none (.fn fnF1) rfl⟩

/-- Witness for C3 at a concrete registry: the registered key resolves,
an unregistered key is absent. -/
theorem claim_C3_witness :
    regMODELS.get "X" = some (.cls clsA) ∧ regMODELS.get "nope" = none :=
  ⟨(claim_C3_registry_get).1 regMODELS "X" (.cls clsA) rfl rfl,
   (claim_C3_registry_get).2.2.1 regMODELS "nope" rfl rfl⟩

/-! ## Introspection lemmas (claims C4, C5) -/

theorem classParamStep_preserve {own : String} {dd : List (String × String)}
    {args : List (String × ValueComment)} {kv : String × ParamSig}
    {k : String} {v : ValueComment} (hget : odGet args k = some v) :
    odGet (classParamStep own dd args kv) k = some v := by
  unfold classParamStep
  by_cases h1 : kv.2.kind != ParamKind.posOrKw
  · rw [if_pos h1]
    exact hget
  · rw [if_neg h1]
    by_cases h2 : (odGet args kv.1).isSome
    · rw [if_pos h2]
      exact hget
    · rw [if_neg h2]
      have hne : k ≠ kv.1 := by
        intro he
        subst he
        rw [hget] at h2
        exact h2 rfl
      rw [odGet_set_ne hne]
      exact hget

theorem foldl_classParamStep_preserve {own : String}
    {dd : List (String × String)} :
    ∀ (ps : List (String × ParamSig)) (args : List (String × ValueComment))
      (k : String) (v : ValueComment),
      odGet args k = some v →
      odGet (ps.foldl (classParamStep own dd) args) k = some v := by
  intro ps
  induction ps with
  | nil => intro args k v h; exact h
  | cons q rest ih =>
    intro args k v h
    exact ih _ _ _ (classParamStep_preserve h)

theorem classLevelStep_preserve {args : List (String × ValueComment)}
    {lvl : ClassLevel} {k : String} {v : ValueComment}
    (hget : odGet args k = some v) :
    odGet (classLevelStep args lvl) k = some v := by
  unfold classLevelStep
  exact foldl_classParamStep_preserve _ _ _ _ hget

theorem foldl_classLevelStep_preserve :
    ∀ (m : List ClassLevel) (args : List (String × ValueComment))
      (k : String) (v : ValueComment),
      odGet args k = some v →
      odGet (m.foldl classLevelStep args) k = some v := by
  intro m
  induction m with
  | nil => intro args k v h; exact h
  | cons lvl rest ih =>
    intro args k v h
    exact ih _ _ _ (classLevelStep_preserve h)

theorem foldl_classParamStep_absent {own : String}
    {dd : List (String × String)} :
    ∀ (ps : List (String × ParamSig)) (args : List (String × ValueComment))
      (k : String),
      k ∉ ps.map Prod.fst → odGet args k = none →
      odGet (ps.foldl (classParamStep own dd) args) k = none := by
  intro ps
  induction ps with
  | nil => intro args k _ h; exact h
  | cons q rest ih =>
    intro args k hk h
    have hkq : k ≠ q.1 := by
      intro he
      exact hk (by rw [he]; exact List.mem_cons_self _ _)
    have hkrest : k ∉ rest.map Prod.fst := fun hx =>
      hk (List.mem_cons_of_mem _ hx)
    refine ih _ _ hkrest ?_
    unfold classParamStep
    by_cases h1 : q.2.kind != ParamKind.posOrKw
    · rw [if_pos h1]; exact h
    · rw [if_neg h1]
      by_cases h2 : (odGet args q.1).isSome
      · rw [if_pos h2]; exact h
      · rw [if_neg h2]
        rw [odGet_set_ne hkq]
        exact h

theorem foldl_classParamStep_establish {own : String}
    {dd : List (String × String)} :
    ∀ (ps : List (String × ParamSig)) (args : List (String × ValueComment))
      (p : String) (sig : ParamSig),
      (p, sig) ∈ ps → (ps.map Prod.fst).Nodup → sig.kind = .posOrKw →
      odGet args p = none →
      odGet (ps.foldl (classParamStep own dd) args) p =
        some (paramDefault own dd p sig) := by
  intro ps
  induction ps with
  | nil => intro args p sig hmem; simp at hmem
  | cons q rest ih =>
    intro args p sig hmem hnd hkind hnone
    have hnd' : (q.1 :: rest.map Prod.fst).Nodup := by
      rw [List.map_cons] at hnd
      exact hnd
    obtain ⟨hq1, hq2⟩ := List.nodup_cons.mp hnd'
    rcases List.mem_cons.mp hmem with heq | hmem'
    · subst heq
      have hstep : classParamStep own dd args (p, sig) =
          odSet args p (paramDefault own dd p sig) := by
        unfold classParamStep
        rw [if_neg (by simp [hkind]), if_neg (by rw [hnone]; simp)]
      rw [List.foldl_cons, hstep]
      exact foldl_classParamStep_preserve _ _ _ _ odGet_set_self
    · have hqp : q.1 ≠ p := by
        intro he
        exact hq1 (he ▸ List.mem_map.mpr ⟨(p, sig), hmem', rfl⟩)
      refine ih _ _ _ hmem' hq2 hkind ?_
      unfold classParamStep
      by_cases h1 : q.2.kind != ParamKind.posOrKw
      · rw [if_pos h1]; exact hnone
      · rw [if_neg h1]
        by_cases h2 : (odGet args q.1).isSome
        · rw [if_pos h2]; exact hnone
        · rw [if_neg h2]
          rw [odGet_set_ne (fun he => hqp he.symm)]
          exact hnone

theorem foldl_classParamStep_skip_nonpos {own : String}
    {dd : List (String × String)} :
    ∀ (ps : List (String × ParamSig)) (args : List (String × ValueComment))
      (k : String),
      (∀ sig, (k, sig) ∈ ps → sig.kind ≠ .posOrKw) → odGet args k = none →
      odGet (ps.foldl (classParamStep own dd) args) k = none := by
  intro ps
  induction ps with
  | nil => intro args k _ h; exact h
  | cons q rest ih =>
    intro args k hk h
    refine ih _ _ (fun sig hs => hk sig (List.mem_cons_of_mem _ hs)) ?_
    unfold classParamStep
    by_cases h1 : q.2.kind != ParamKind.posOrKw
    · rw [if_pos h1]; exact h
    · rw [if_neg h1]
      have hq : q.2.kind = .posOrKw := by
        simpa using h1
      have hkq : k ≠ q.1 := by
        intro he
        refine hk q.2 ?_ hq
        rw [he]
        exact List.mem_cons_self _ _
      by_cases h2 : (odGet args q.1).isSome
      · rw [if_pos h2]; exact h
      · rw [if_neg h2]
        rw [odGet_set_ne hkq]
        exact h

theorem mem_filter_params {p : String} {sig : ParamSig}
    {ps : List (String × ParamSig)} (hmem : (p, sig) ∈ ps)
    (hp : p ≠ "self") :
    (p, sig) ∈ ps.filter (fun kv => kv.1 != "self") := by
  refine List.mem_filter.mpr ⟨hmem, ?_⟩
  simpa using hp

theorem nodup_filter_params {ps : List (String × ParamSig)}
    (hnd : (ps.map Prod.fst).Nodup) :
    ((ps.filter (fun kv => kv.1 != "self")).map Prod.fst).Nodup :=
  hnd.sublist ((List.filter_sublist ps).map Prod.fst)

theorem not_mem_filter_params {p : String} {ps : List (String × ParamSig)}
    (hp : p ∉ ps.map Prod.fst) :
    p ∉ (ps.filter (fun kv => kv.1 != "self")).map Prod.fst := fun hx => by
  obtain ⟨q, hq, hqp⟩ := List.mem_map.mp hx
  exact hp (List.mem_map.mpr ⟨q, (List.mem_filter.mp hq).1, hqp⟩)

/-- The `value` field of a parameter's template entry is the declared
default when one exists, whatever the docstring contributes. -/
theorem paramDefault_value {own : String} {dd : List (String × String)}
    {k : String} {sig : ParamSig} {d : DVal} (h : sig.default = some d) :
    (paramDefault own dd k sig).value = d := by
  unfold paramDefault
  rw [h]
  dsimp only
  cases odGet dd k with
  | none => rfl
  | some doc =>
    dsimp only
    split <;> rfl

/-- Claim C4: the class-variant introspection walks the MRO from
most-derived to most-base and merges so that a parameter captured at a
more-derived level is never overwritten by a less-derived one: entries
established by an MRO front are unchanged when deeper levels follow; on
`B(A)` where only `A` declares `p` with a default, the template carries
`A`'s default; where both declare `p` with different defaults, it
carries `B`'s. -/
theorem claim_C4_mro_merge :
    (∀ (m1 m2 : List ClassLevel) (cn1 cn2 : String) (k : String)
      (v : ValueComment),
      odGet (get_class_arguments ⟨cn1, m1⟩) k = some v →
      odGet (get_class_arguments ⟨cn2, m1 ++ m2⟩) k = some v) ∧
    (∀ (cn : String) (bl al : ClassLevel) (p : String) (sig : ParamSig)
      (d : DVal),
      p ∉ bl.params.map Prod.fst →
      (p, sig) ∈ al.params → (al.params.map Prod.fst).Nodup →
      sig.kind = .posOrKw → p ≠ "self" → sig.default = some d →
      odGet (get_class_arguments ⟨cn, [bl, al]⟩) p =
        some (paramDefault al.name (getDocParams al.doc) p sig) ∧
      (paramDefault al.name (getDocParams al.doc) p sig).value = d) ∧
    (∀ (cn : String) (bl al : ClassLevel) (p : String) (sigB sigA : ParamSig)
      (dB dA : DVal),
      (p, sigB) ∈ bl.params → (bl.params.map Prod.fst).Nodup →
      sigB.kind = .posOrKw → p ≠ "self" → sigB.default = some dB →
      (p, sigA) ∈ al.params → sigA.default = some dA → dB ≠ dA →
      odGet (get_class_arguments ⟨cn, [bl, al]⟩) p =
        some (paramDefault bl.name (getDocParams bl.doc) p sigB) ∧
      (paramDefault bl.name (getDocParams bl.doc) p sigB).value = dB) := by
  refine ⟨?_, ?_, ?_⟩
  · intro m1 m2 cn1 cn2 k v h
    unfold get_class_arguments at h ⊢
    dsimp only at h ⊢
    rw [List.foldl_append]
    exact foldl_classLevelStep_preserve _ _ _ _ h
  · intro cn bl al p sig d hnb hmem hnd hkind hself hdflt
    constructor
    · show odGet (classLevelStep (classLevelStep [] bl) al) p =
        some (paramDefault al.name (getDocParams al.doc) p sig)
      have habs : odGet (classLevelStep [] bl) p = none := by
        unfold classLevelStep
        exact foldl_classParamStep_absent _ _ _ (not_mem_filter_params hnb) rfl
      unfold classLevelStep
      exact foldl_classParamStep_establish _ _ _ _
        (mem_filter_params hmem hself) (nodup_filter_params hnd) hkind habs
    · exact paramDefault_value hdflt
  · intro cn bl al p sigB sigA dB dA hmemB hndB hkindB hself hdB hmemA hdA hne
    constructor
    · show odGet (classLevelStep (classLevelStep [] bl) al) p =
        some (paramDefault bl.name (getDocParams bl.doc) p sigB)
      have hest : odGet (classLevelStep [] bl) p =
          some (paramDefault bl.name (getDocParams bl.doc) p sigB) := by
        unfold classLevelStep
        exact foldl_classParamStep_establish _ _ _ _
          (mem_filter_params hmemB hself) (nodup_filter_params hndB) hkindB rfl
      exact classLevelStep_preserve hest
    · exact paramDefault_value hdB

/-- The two-level hierarchy `B(A)` of the witness: both declare `p`
(with defaults 2 and 1 respectively), only `A` declares `q` (default
7). -/
def lvlB4 : ClassLevel :=
  ⟨"B", [], [("self", ⟨.posOrKw, none, none⟩),
             ("p", ⟨.posOrKw, some (.int 2), none⟩)]⟩

/-- The base level `A` of the witness hierarchy. -/
def lvlA4 : ClassLevel :=
  ⟨"A", [], [("self", ⟨.posOrKw, none, none⟩),
             ("p", ⟨.posOrKw, some (.int 1), none⟩),
             ("q", ⟨.posOrKw, some (.int 7), none⟩)]⟩

/-- The witness class `B(A)` with MRO `[B, A]`. -/
def clsB4 : PyClass := ⟨"B", [lvlB4, lvlA4]⟩

/-- Witness for C4: on `B(A)`, `p` (declared in both with different
defaults) gets `B`'s default 2, and `q` (declared only in `A`) gets
`A`'s default 7. -/
theorem claim_C4_witness :
    (odGet (get_class_arguments clsB4) "p").map ValueComment.value =
      some (.int 2) ∧
    (odGet (get_class_arguments clsB4) "q").map ValueComment.value =
      some (.int 7) := by
  obtain ⟨hp1, hp2⟩ := (claim_C4_mro_merge).2.2 "B" lvlB4 lvlA4 "p"
    ⟨.posOrKw, some (.int 2), none⟩ ⟨.posOrKw, some (.int 1), none⟩
    (.int 2) (.int 1)
    (List.mem_cons_of_mem _ (List.mem_cons_self _ _)) (by decide) rfl
    (by decide) rfl (List.mem_cons_of_mem _ (List.mem_cons_self _ _)) rfl
    (by intro h; injection h with h2; exact absurd h2 (by decide))
  obtain ⟨hq1, hq2⟩ := (claim_C4_mro_merge).2.1 "B" lvlB4 lvlA4 "q"
    ⟨.posOrKw, some (.int 7), none⟩ (.int 7)
    (by decide)
    (List.mem_cons_of_mem _ (List.mem_cons_of_mem _ (List.mem_cons_self _ _)))
    (by decide) rfl (by decide) rfl
  unfold clsB4
  constructor
  · rw [hp1]
    exact congrArg some hp2
  · rw [hq1]
    exact congrArg some hq2

theorem funcParamStep_preserve_ne {own : String} {dd : List (String × String)}
    {args : List (String × ValueComment)} {kv : String × ParamSig}
    {k : String} (hne : kv.1 ≠ k) :
    odGet (funcParamStep own dd args kv) k = odGet args k := by
  unfold funcParamStep
  have hke : k ≠ kv.1 := fun h => hne h.symm
  cases kv.2.kind with
  | varKw => exact odGet_set_ne hke
  | varPos => exact odGet_set_ne hke
  | posOrKw => exact odGet_set_ne hke
  | posOnly => rfl
  | kwOnly => rfl

theorem foldl_funcParamStep_preserve {own : String}
    {dd : List (String × String)} :
    ∀ (ps : List (String × ParamSig)) (args : List (String × ValueComment))
      (k : String),
      k ∉ ps.map Prod.fst →
      odGet (ps.foldl (funcParamStep own dd) args) k = odGet args k := by
  intro ps
  induction ps with
  | nil => intro args k _; rfl
  | cons q rest ih =>
    intro args k hk
    have hkq : q.1 ≠ k := by
      intro he
      exact hk (by rw [← he]; exact List.mem_cons_self _ _)
    rw [List.foldl_cons, ih _ _ (fun hx => hk (List.mem_cons_of_mem _ hx)),
      funcParamStep_preserve_ne hkq]

theorem foldl_funcParamStep_establish {own : String}
    {dd : List (String × String)} :
    ∀ (ps : List (String × ParamSig)) (args : List (String × ValueComment))
      (k : String) (p : ParamSig),
      (k, p) ∈ ps → (ps.map Prod.fst).Nodup →
      (p.kind = .varKw →
        odGet (ps.foldl (funcParamStep own dd) args) k =
          some ⟨DVal.dict [], ""⟩) ∧
      (p.kind = .varPos →
        odGet (ps.foldl (funcParamStep own dd) args) k =
          some ⟨DVal.list [], ""⟩) := by
  intro ps
  induction ps with
  | nil => intro args k p hmem; simp at hmem
  | cons q rest ih =>
    intro args k p hmem hnd
    have hnd' : (q.1 :: rest.map Prod.fst).Nodup := by
      rw [List.map_cons] at hnd
      exact hnd
    obtain ⟨hq1, hq2⟩ := List.nodup_cons.mp hnd'
    rcases List.mem_cons.mp hmem with heq | hmem'
    · subst heq
      constructor
      · intro hkind
        have hstep : funcParamStep own dd args (k, p) =
            odSet args k ⟨DVal.dict [], ""⟩ := by
          unfold funcParamStep
          rw [hkind]
        rw [List.foldl_cons, hstep,
          foldl_funcParamStep_preserve _ _ _ hq1, odGet_set_self]
      · intro hkind
        have hstep : funcParamStep own dd args (k, p) =
            odSet args k ⟨DVal.list [], ""⟩ := by
          unfold funcParamStep
          rw [hkind]
        rw [List.foldl_cons, hstep,
          foldl_funcParamStep_preserve _ _ _ hq1, odGet_set_self]
    · exact ih _ _ _ hmem' hq2

/-- Claim C5 (amended): in templates produced by the function variant, a
variadic-keyword parameter always yields an entry with an empty-mapping
default and a variadic-positional parameter an entry with an
empty-sequence default — they are never skipped. The class variant, by
contrast, skips every parameter whose kind is not ordinary
positional-or-keyword, variadic parameters included: a name declared
only variadically at every MRO level gets no template entry. -/
theorem claim_C5_variadic_entries :
    (∀ (f : PyFunc) (k : String) (p : ParamSig),
      (k, p) ∈ f.params → (f.params.map Prod.fst).Nodup →
      p.kind = .varKw →
      odGet (get_function_arguments f) k = some ⟨DVal.dict [], ""⟩) ∧
    (∀ (f : PyFunc) (k : String) (p : ParamSig),
      (k, p) ∈ f.params → (f.params.map Prod.fst).Nodup →
      p.kind = .varPos →
      odGet (get_function_arguments f) k = some ⟨DVal.list [], ""⟩) ∧
    (∀ (c : PyClass) (k : String),
      (∀ lvl ∈ c.mro, ∀ sig, (k, sig) ∈ lvl.params →
        sig.kind ≠ .posOrKw) →
      odGet (get_class_arguments c) k = none) := by
  refine ⟨?_, ?_, ?_⟩
  · intro f k p hmem hnd hkind
    unfold get_function_arguments
    exact (foldl_funcParamStep_establish _ _ _ _ hmem hnd).1 hkind
  · intro f k p hmem hnd hkind
    unfold get_function_arguments
    exact (foldl_funcParamStep_establish _ _ _ _ hmem hnd).2 hkind
  · intro c k hall
    unfold get_class_arguments
    have hgen : ∀ (m : List ClassLevel) (args : List (String × ValueComment)),
        (∀ lvl ∈ m, ∀ sig, (k, sig) ∈ lvl.params → sig.kind ≠ .posOrKw) →
        odGet args k = none →
        odGet (m.foldl classLevelStep args) k = none := by
      intro m
      induction m with
      | nil => intro args _ h; exact h
      | cons lvl rest ih =>
        intro args hm h
        refine ih _ (fun l hl => hm l (List.mem_cons_of_mem _ hl)) ?_
        unfold classLevelStep
        refine foldl_classParamStep_skip_nonpos _ _ _ ?_ h
        intro sig hs
        exact hm lvl (List.mem_cons_self _ _) sig (List.mem_filter.mp hs).1
    exact hgen c.mro [] hall rfl

/-- A class whose only non-`self` constructor parameter is `**kwargs`. -/
def clsVarKw : PyClass :=
  ⟨"B", [⟨"B", [], [("self", ⟨.posOrKw, none, none⟩),
                    ("kwargs", ⟨.varKw, none, none⟩)]⟩]⟩

/-- A function taking only `**kwargs`. -/
def fnVarKw : PyFunc := ⟨"g", [], [("kwargs", ⟨.varKw, none, none⟩)]⟩

/-- Counterexample to C5 as stated: the function variant gives
`**kwargs` an empty-mapping entry, but the class variant (line 98 skips
every non-POSITIONAL_OR_KEYWORD kind before the variadic cases can
apply) yields no entry at all for the same parameter — its template is
empty. -/
theorem claim_C5_counterexample :
    odGet (get_function_arguments fnVarKw) "kwargs" =
      some ⟨DVal.dict [], ""⟩ ∧
    get_class_arguments clsVarKw = [] ∧
    odGet (get_class_arguments clsVarKw) "kwargs" = none :=
  ⟨rfl, rfl, rfl⟩

/-- A function taking `*args` and `**kwargs`. -/
def fnVarBoth : PyFunc :=
  ⟨"h", [], [("args", ⟨.varPos, none, none⟩),
             ("kwargs", ⟨.varKw, none, none⟩)]⟩

/-- Witness for the amended C5 at concrete inputs. -/
theorem claim_C5_witness :
    odGet (get_function_arguments fnVarBoth) "args" =
      some ⟨DVal.list [], ""⟩ ∧
    odGet (get_function_arguments fnVarBoth) "kwargs" =
      some ⟨DVal.dict [], ""⟩ ∧
    odGet (get_class_arguments clsVarKw) "kwargs" = none := by
  refine ⟨?_, ?_, ?_⟩
  · exact (claim_C5_variadic_entries).2.1 fnVarBoth "args"
      ⟨.varPos, none, none⟩ (List.mem_cons_self _ _) (by decide) rfl
  · exact (claim_C5_variadic_entries).1 fnVarBoth "kwargs"
      ⟨.varKw, none, none⟩
      (List.mem_cons_of_mem _ (List.mem_cons_self _ _)) (by decide) rfl
  · refine (claim_C5_variadic_entries).2.2 clsVarKw "kwargs" ?_
    intro lvl hl sig hs
    have hlvl : lvl = ⟨"B", [], [("self", ⟨.posOrKw, none, none⟩),
        ("kwargs", ⟨.varKw, none, none⟩)]⟩ := by
      rcases List.mem_cons.mp hl with h | h
      · exact h
      · simp at h
    subst hlvl
    rcases List.mem_cons.mp hs with h | h
    · injection h with h1 _
      exact absurd h1 (by decide)
    · rcases List.mem_cons.mp h with h2 | h2
      · injection h2 with _ hb
        subst hb
        intro hk
        cases hk
      · simp at h2

/-! ## fetch_parameters (claim C6) -/

/-- Claim C6 (amended): for a key registered in neither map,
`fetch_parameters` fails with a ValueError identifying the missing key
(the message `f"Unexpected type {req_type}"` does not include the
registry name); for a key present in either map it returns the
introspected template without raising. -/
theorem claim_C6_fetch_parameters :
    (∀ (r : Registry) (k : String),
      odGet r.class_map k = none → odGet r.func_map k = none →
      r.fetch_parameters k = .error (.fetchUnexpectedType k) ∧
      (PyErr.fetchUnexpectedType k).excClass = .valueError) ∧
    (∀ (r : Registry) (k : String) (c : PyClass),
      odGet r.class_map k = some (.cls c) →
      r.fetch_parameters k = .ok (get_class_arguments c)) ∧
    (∀ (r : Registry) (k : String) (f : PyFunc),
      odGet r.class_map k = none → odGet r.func_map k = some (.fn f) →
      r.fetch_parameters k = .ok (get_function_arguments f)) := by
  refine ⟨?_, ?_, ?_⟩
  · intro r k hc hf
    unfold Registry.fetch_parameters
    rw [hc, hf]
    exact ⟨rfl, rfl⟩
  · intro r k c hc
    unfold Registry.fetch_parameters
    rw [hc]
  · intro r k f hc hf
    unfold Registry.fetch_parameters
    rw [hc, hf]

/-- An empty registry named `OTHER`: identical to `regEmpty` except for
the name. -/
def regOther : Registry := ⟨"OTHER", ["class", "function"], [], []⟩

/-- Counterexample to C6 as stated: the ValueError raised for an
unregistered key carries only the key — it does not name the registry.
Two registries with different names and the same (empty) maps raise the
very same error value for the same missing key. -/
theorem claim_C6_counterexample :
    regEmpty.fetch_parameters "missing" =
      .error (.fetchUnexpectedType "missing") ∧
    regOther.fetch_parameters "missing" =
      .error (.fetchUnexpectedType "missing") ∧
    regEmpty.name ≠ regOther.name ∧
    regEmpty.fetch_parameters "missing" = regOther.fetch_parameters "missing" :=
  ⟨rfl, rfl, by decide, rfl⟩

/-- Witness for the amended C6 at concrete inputs: the missing key
raises the ValueError; the registered key returns its template. -/
theorem claim_C6_witness :
    regMODELS.fetch_parameters "missing" =
      .error (.fetchUnexpectedType "missing") ∧
    regMODELS.fetch_parameters "X" = .ok (get_class_arguments clsA) :=
  ⟨((claim_C6_fetch_parameters).1 regMODELS "missing" rfl rfl).1,
   (claim_C6_fetch_parameters).2.1 regMODELS "X" clsA rfl⟩
